import Mathlib

/-!
Verification development for a Python TXP/FARC binary asset parser
(txp_parser.py).  The parser is shallowly embedded: the byte buffer is an
immutable list of byte values, the mutable `Reader` object becomes an
explicit state record threaded through every operation, Python exceptions
become an `Except` error result that carries the reader state at the point
of the raise (Python exceptions do not roll back mutations), and Python
`None` becomes `Option`.  32-bit floats are kept as their raw 32-bit
patterns: no claim below inspects float arithmetic.
-/

/-- Bytes of the input file; each entry is one byte value (0..255). -/
abbrev Buf := List Nat

/-- Magic constant for a TextureSet node ('TXP' type 3). -/
def TXP_TEXSET_SIG : Nat := 0x03505854

/-- Magic constant for a Texture node, version 4. -/
def TXP_TEXTURE_SIG_V4 : Nat := 0x04505854

/-- Magic constant for a Texture node, version 5. -/
def TXP_TEXTURE_SIG_V5 : Nat := 0x05505854

/-- Magic constant for a SubTexture node. -/
def TXP_SUBTEXTURE_SIG : Nat := 0x02505854

/-- Decode a little-endian byte list into a natural number (base 256,
first byte least significant), as struct.unpack does for format I. -/
def decodeWordLE : Buf → Nat
  | [] => 0
  | b :: rest => b + 256 * decodeWordLE rest

/-- Decode a 4-byte group in the given endianness (true = little). -/
def decodeWord (little : Bool) (bs : Buf) : Nat :=
  if little then decodeWordLE bs else decodeWordLE bs.reverse

/-- Encode a natural number below 2^32 as 4 bytes in the given endianness. -/
def encodeWord (little : Bool) (n : Nat) : Buf :=
  let le := [n % 256, n / 256 % 256, n / 256 ^ 2 % 256, n / 256 ^ 3 % 256]
  if little then le else le.reverse

/-- Reinterpret an unsigned 32-bit value as a signed one (two's
complement), as struct.unpack does for format i. -/
def toI32 (u : Nat) : Int :=
  if u < 2 ^ 31 then (u : Int) else (u : Int) - 2 ^ 32

/-- Word of the buffer starting at byte position p, in the given
endianness (reads fewer than 4 bytes near the end of the buffer). -/
def u32At (little : Bool) (buf : Buf) (p : Nat) : Nat :=
  decodeWord little ((buf.drop p).take 4)

/-- Signed view of u32At. -/
def i32At (little : Bool) (buf : Buf) (p : Nat) : Int :=
  toI32 (u32At little buf p)

/-- Error classes raised by the Python parser: EOFError / struct.error
short reads, the invalid-FARC-signature ValueError, NotImplementedError
for encrypted archives, the three node-signature ValueErrors, and
IndexError (out-of-range list element or pop from an empty list). -/
inductive PErr where
  | eofErr
  | farcSigErr
  | encryptedErr
  | subSigErr
  | texSigErr
  | setSigErr
  | indexErr
deriving Repr, DecidableEq

deriving instance DecidableEq for Except

/-- State of the Python Reader object together with the underlying
file object: the immutable byte buffer, the file position, the selected
endianness ('<' encoded as true) and the base-offset stack (top first). -/
structure RState where
  buf : Buf
  pos : Nat
  little : Bool
  bases : List Nat
deriving Repr, DecidableEq

/-- Fresh reader over a buffer: default little-endian, base stack [0]. -/
def mkReader (buf : Buf) : RState :=
  { buf := buf, pos := 0, little := true, bases := [0] }

/-- Python file.read(n) on a BytesIO: returns the bytes from the current
position (at most n, fewer near the end, none past the end) and advances
the position by the number of bytes actually returned. -/
def fread (n : Nat) (s : RState) : Buf × RState :=
  let d := (s.buf.drop s.pos).take n
  (d, { s with pos := s.pos + d.length })

/-- Parse computations: state in, either an error paired with the state
at the raise point, or a value paired with the updated state. -/
def M (α : Type) : Type := RState → Except (PErr × RState) (α × RState)

instance : Monad M where
  pure a := fun s => .ok (a, s)
  bind m f := fun s =>
    match m s with
    | .error e => .error e
    | .ok (a, s') => f a s'

@[simp] theorem M_bind_eq {α β : Type} (m : M α) (f : α → M β) (s : RState) :
    (m >>= f) s =
      match m s with
      | .error e => .error e
      | .ok (a, s') => f a s' := rfl

@[simp] theorem M_pure_eq {α : Type} (a : α) (s : RState) :
    (pure a : M α) s = .ok (a, s) := rfl

/-- Python raise: the error carries the state at the raise point. -/
def pythonRaise {α : Type} (e : PErr) : M α := fun s => .error (e, s)

/-- Reader.tell. -/
def tellM : M Nat := fun s => .ok (s.pos, s)

/-- Reader.seek(pos) (absolute). -/
def seekTo (p : Nat) : M Unit := fun s => .ok ((), { s with pos := p })

/-- Reader.base: top of the base-offset stack. -/
def curBase (s : RState) : Nat := s.bases.headD 0

/-- Reader.seek(reader.base + offset). -/
def seekBaseRel (off : Nat) : M Unit :=
  fun s => .ok ((), { s with pos := curBase s + off })

/-- Reader.push_base(offset). -/
def pushBase (b : Nat) : M Unit :=
  fun s => .ok ((), { s with bases := b :: s.bases })

/-- Reader.pop_base; list.pop on an empty Python list raises IndexError. -/
def popBase : M Unit := fun s =>
  match s.bases with
  | [] => .error (.indexErr, s)
  | _ :: rest => .ok ((), { s with bases := rest })

/-- Reader.set_endian(little). -/
def setLittle (b : Bool) : M Unit :=
  fun s => .ok ((), { s with little := b })

/-- Reader.read_fmt for a 4-byte format: read 4 bytes, raise EOFError
unless exactly 4 bytes came back, decode in the current endianness. -/
def readU32 : M Nat := fun s =>
  let r := fread 4 s
  if r.1.length = 4 then .ok (decodeWord s.little r.1, r.2)
  else .error (.eofErr, r.2)

/-- Reader.read_int32 (signed decode of the same 4 bytes). -/
def readI32 : M Int := do
  let u ← readU32
  pure (toI32 u)

/-- struct.unpack of a big-endian u32 directly against the file (used by
the FARC archive reader); a short read raises struct.error. -/
def readU32BE : M Nat := fun s =>
  let r := fread 4 s
  if r.1.length = 4 then .ok (decodeWordLE r.1.reverse, r.2)
  else .error (.eofErr, r.2)

/-- struct.unpack of a little-endian u32 directly against the file (used
by the texture-name offset table, ignoring the cursor endianness). -/
def readU32LE : M Nat := fun s =>
  let r := fread 4 s
  if r.1.length = 4 then .ok (decodeWordLE r.1, r.2)
  else .error (.eofErr, r.2)

/-- Reader.read_offset = read_uint32. -/
def readOffset : M Nat := readU32

/-- Reader.read_bytes(n): plain file.read with no length check; a
negative count (Python read semantics) returns the whole rest. -/
def readBytes (n : Int) : M Buf := fun s =>
  if n < 0 then
    let r := fread (s.buf.length - s.pos) s
    .ok r
  else
    let r := fread n.toNat s
    .ok r

/-- Reader.read_float: read_fmt('f') consumes exactly 4 bytes or raises
EOFError; the float value is kept as its raw 32-bit pattern. -/
def readF32 : M Nat := readU32

/-- Core of read_cstring on the remaining bytes: collected bytes before
the first zero, and the number of bytes consumed (the terminator is
consumed; at the end of the buffer the scan stops consuming nothing). -/
def readCStrCore : List Nat → Buf × Nat
  | [] => ([], 0)
  | b :: rest =>
    if b = 0 then ([], 1)
    else
      let r := readCStrCore rest
      (b :: r.1, r.2 + 1)

/-- Bytes of the null-terminated string starting at a position, together
with the position after the scan. -/
def readCStrAux (buf : Buf) (pos : Nat) : Buf × Nat :=
  let r := readCStrCore (buf.drop pos)
  (r.1, pos + r.2)

/-- read_cstring as a cursor operation (never raises). -/
def readCStrM : M Buf := fun s =>
  let r := readCStrAux s.buf s.pos
  .ok (r.1, { s with pos := r.2 })

/-- String content at an absolute position (used where the parser seeks,
reads a name and then restores the position). -/
def cstringAt (buf : Buf) (p : Nat) : Buf := (readCStrAux buf p).1

/-- Reader.read_at_offset(offset, func): none for a zero offset;
otherwise run the decoder at base + offset and restore the position
(only the position; other mutations of the decoder persist, and an
exception inside the decoder propagates without restoring anything). -/
def readAtOffset {α : Type} (off : Nat) (func : M α) : M (Option α) := fun s =>
  if off = 0 then .ok (none, s)
  else
    let cur := s.pos
    match func { s with pos := curBase s + off } with
    | .error e => .error e
    | .ok (v, s2) => .ok (some v, { s2 with pos := cur })

/-- Reader.read_string_at_offset(offset): none for a zero offset;
otherwise the null-terminated string at base + offset, with the position
restored (string reading cannot fail). -/
def readStringAtOffset (off : Nat) : M (Option Buf) := fun s =>
  if off = 0 then .ok (none, s)
  else .ok (some (cstringAt s.buf (curBase s + off)), s)

/-- SubTexture node: width, height, format id, numeric id, payload. -/
structure SubTexture where
  width : Int
  height : Int
  format : Int
  id : Int
  data : Buf
deriving Repr, DecidableEq

/-- SubTexture.read: signature check (no endianness retry), four header
integers, a size field, then a raw unchecked read of size bytes. -/
def SubTexture.read : M SubTexture := do
  let sig ← readI32
  if sig = (TXP_SUBTEXTURE_SIG : Int) then do
    let w ← readI32
    let h ← readI32
    let fmt ← readI32
    let i ← readI32
    let data_size ← readI32
    let d ← readBytes data_size
    pure { width := w, height := h, format := fmt, id := i, data := d }
  else pythonRaise .subSigErr

/-- Texture node: grid of optional SubTextures indexed
[array][mip], a name back-filled later, and the two effective dims. -/
structure Texture where
  subtextures : List (List (Option SubTexture))
  name : Option Buf
  array_size : Int
  mip_count : Int
deriving Repr, DecidableEq

/-- Effective (array_size, mip_count) from the subcount field and the
packed info word: low byte mip count, next byte array size, the
mip count overridden by subcount when array_size is 1 and they differ,
both dims floored to 1.  Python bitwise and / shift on a signed int
agree with Euclidean mod / division by 256. -/
def textureDims (subcount info : Int) : Int × Int :=
  let mip0 := info.emod 256
  let arr := (info.ediv 256).emod 256
  let mip := if arr = 1 ∧ mip0 ≠ subcount then subcount else mip0
  (max 1 arr, max 1 mip)

/-- One cell of the Texture loop body: read one offset; when nonzero,
save the position, seek to base + offset, decode a SubTexture, restore. -/
def readMipCell : M (Option SubTexture) := do
  let off ← readOffset
  if off = 0 then pure none
  else do
    let cur ← tellM
    seekBaseRel off
    let st ← SubTexture.read
    seekTo cur
    pure (some st)

/-- Inner Texture loop over mip indices. -/
def readMipRow : Nat → M (List (Option SubTexture))
  | 0 => pure []
  | k + 1 => do
    let c ← readMipCell
    let rest ← readMipRow k
    pure (c :: rest)

/-- Outer Texture loop over array indices (mip is the row width). -/
def readGrid (mip : Nat) : Nat → M (List (List (Option SubTexture)))
  | 0 => pure []
  | k + 1 => do
    let row ← readMipRow mip
    let rest ← readGrid mip k
    pure (row :: rest)

/-- Texture.read: push a base at the texture start; on a bad signature
pop and raise; otherwise read subcount and the info word, derive the
dims, read the offset grid (decoding each nonzero cell), and pop. -/
def Texture.read : M Texture := do
  let texture_base ← tellM
  pushBase texture_base
  let sig ← readI32
  if sig = (TXP_TEXTURE_SIG_V4 : Int) ∨ sig = (TXP_TEXTURE_SIG_V5 : Int) then do
    let subcount ← readI32
    let info ← readI32
    let dims := textureDims subcount info
    let grid ← readGrid dims.2.toNat dims.1.toNat
    popBase
    pure { subtextures := grid, name := none,
           array_size := dims.1, mip_count := dims.2 }
  else do
    popBase
    pythonRaise .texSigErr

/-- TextureSet node: textures in offset-table order (zero offsets are
skipped, not represented) and the index-to-name map. -/
structure TextureSet where
  textures : List Texture
  texture_names : List (Nat × Buf)
deriving Repr, DecidableEq

/-- Offset table: count sequential read_offset calls. -/
def readOffsetTable : Nat → M (List Nat)
  | 0 => pure []
  | k + 1 => do
    let o ← readOffset
    let rest ← readOffsetTable k
    pure (o :: rest)

/-- TextureSet texture loop: zero offsets are skipped; each nonzero one
is resolved against the current base and decoded with the position
restored afterwards. -/
def readTexturesLoop : List Nat → M (List Texture)
  | [] => pure []
  | off :: rest =>
    if off = 0 then readTexturesLoop rest
    else do
      let cur ← tellM
      seekBaseRel off
      let t ← Texture.read
      seekTo cur
      let ts ← readTexturesLoop rest
      pure (t :: ts)

/-- Texture-name offset table: count u32 reads that are hardcoded
little-endian regardless of the cursor endianness. -/
def readNameOffsetsLE : Nat → M (List Nat)
  | 0 => pure []
  | k + 1 => do
    let o ← readU32LE
    let rest ← readNameOffsetsLE k
    pure (o :: rest)

/-- Deferred texture-name pass: walk the name-offset table with its
index; each nonzero offset yields a string assigned to the texture at
the same index when that index is within the (compacted) texture list,
and is always recorded in the index-to-name map. -/
def assignTexNames (buf : Buf) : Nat → List Texture → List (Nat × Buf) →
    List Nat → List Texture × List (Nat × Buf)
  | _, texs, nmap, [] => (texs, nmap)
  | i, texs, nmap, no :: rest =>
    if no = 0 then assignTexNames buf (i + 1) texs nmap rest
    else
      let nm := cstringAt buf no
      let texs' :=
        if h : i < texs.length then
          texs.set i { texs.get ⟨i, h⟩ with name := some nm }
        else texs
      assignTexNames buf (i + 1) texs' (nmap ++ [(i, nm)]) rest

/-- Current buffer (the name pass reads strings by absolute position and
then restores the position, so it is modelled as a pure pass). -/
def getBuf : M Buf := fun s => .ok (s.buf, s)

/-- Body of TextureSet.read after the signature check: tex_count, a
discarded second count, the offset table, the texture loop, and, when a
names position was supplied, the deferred name pass with the position
restored. -/
def TextureSet.readBody (texture_names_offset : Nat) : M TextureSet := do
  let tex_count ← readI32
  let _rubbish ← readI32
  let offs ← readOffsetTable tex_count.toNat
  let texs ← readTexturesLoop offs
  if texture_names_offset ≠ 0 then do
    let cur ← tellM
    seekTo texture_names_offset
    let nameOffs ← readNameOffsetsLE tex_count.toNat
    let buf ← getBuf
    let pr := assignTexNames buf 0 texs [] nameOffs
    seekTo cur
    pure { textures := pr.1, texture_names := pr.2 }
  else
    pure { textures := texs, texture_names := [] }

/-- TextureSet.read: signature check with a retry that re-reads the same
4 bytes after switching the cursor to big-endian (a flip only when the
cursor was little-endian), then the body. -/
def TextureSet.read (texture_names_offset : Nat) : M TextureSet := do
  let sig ← readI32
  (if sig = (TXP_TEXSET_SIG : Int) then pure ()
   else do
    setLittle false
    let t ← tellM
    seekTo (t - 4)
    let sig2 ← readI32
    if sig2 = (TXP_TEXSET_SIG : Int) then pure ()
    else pythonRaise .setSigErr)
  TextureSet.readBody texture_names_offset

/-- Sprite record: texture reference, rectangle corners and the pixel
rectangle (floats kept as raw 32-bit patterns), name back-filled later. -/
structure Sprite where
  texture_index : Nat
  rect_begin : Nat × Nat
  rect_end : Nat × Nat
  x : Nat
  y : Nat
  width : Nat
  height : Nat
  name : Option Buf
deriving Repr, DecidableEq

/-- Sprite.read: ten fixed-width fields (40 bytes), a reserved u32
discarded. -/
def Sprite.read : M Sprite := do
  let ti ← readU32
  let _reserved ← readU32
  let bx ← readF32
  let b2 ← readF32
  let ex ← readF32
  let e2 ← readF32
  let px ← readF32
  let py ← readF32
  let w ← readF32
  let h ← readF32
  pure { texture_index := ti, rect_begin := (bx, b2), rect_end := (ex, e2),
         x := px, y := py, width := w, height := h, name := none }

/-- Sprite table: sprite_count sequential records. -/
def readSprites : Nat → M (List Sprite)
  | 0 => pure []
  | k + 1 => do
    let sp ← Sprite.read
    let rest ← readSprites k
    pure (sp :: rest)

/-- Sprite-name pass: walk the name-offset table with its index; each
nonzero offset is an absolute string position; the string is assigned to
sprites[i] with no bounds guard, so an index at or past the end of the
sprite list raises IndexError. -/
def assignSpriteNamesLoop (i : Nat) (sprites : List Sprite) :
    List Nat → M (List Sprite)
  | [] => pure sprites
  | no :: rest =>
    if no = 0 then assignSpriteNamesLoop (i + 1) sprites rest
    else do
      seekTo no
      let nm ← readCStrM
      if h : i < sprites.length then
        assignSpriteNamesLoop (i + 1)
          (sprites.set i { sprites.get ⟨i, h⟩ with name := some nm }) rest
      else pythonRaise .indexErr

/-- SpriteSet node: sprites and the owned optional TextureSet. -/
structure SpriteSet where
  sprites : List Sprite
  texture_set : Option TextureSet
deriving Repr, DecidableEq

/-- SpriteSet.read: the signature word is read but never checked; eight
header fields; the TextureSet resolved at an absolute offset under a
pushed base (popped on the success path only); the sprite table at a
base-relative offset; then the sprite-name pass at a base-relative
offset, each phase restoring the saved position afterwards. -/
def SpriteSet.read : M SpriteSet := do
  let _sig ← readI32
  let textures_offset ← readU32
  let _texture_count ← readI32
  let sprite_count ← readI32
  let sprites_offset ← readOffset
  let texture_names_offset ← readOffset
  let sprite_names_offset ← readOffset
  let _sprite_modes_offset ← readOffset
  let tsOpt ← (if textures_offset ≠ 0 then do
      let cur ← tellM
      seekTo textures_offset
      pushBase textures_offset
      let ts ← TextureSet.read texture_names_offset
      popBase
      seekTo cur
      pure (some ts)
    else pure (none : Option TextureSet))
  let sprites ← (if sprites_offset ≠ 0 then do
      let cur ← tellM
      seekBaseRel sprites_offset
      let sp ← readSprites sprite_count.toNat
      seekTo cur
      pure sp
    else pure ([] : List Sprite))
  let sprites2 ← (if sprite_names_offset ≠ 0 then do
      let cur ← tellM
      seekBaseRel sprite_names_offset
      let nameOffs ← readOffsetTable sprite_count.toNat
      let sp2 ← assignSpriteNamesLoop 0 sprites nameOffs
      seekTo cur
      pure sp2
    else pure sprites)
  pure { sprites := sprites2, texture_set := tsOpt }

/-- FARC archive entry. -/
structure FarcEntry where
  name : Buf
  offset : Nat
  compressed_size : Nat
  uncompressed_size : Nat
  is_compressed : Bool
deriving Repr, DecidableEq

/-- Parsed FARC archive header. -/
structure FarcArchive where
  signature : Buf
  header_size : Nat
  alignment : Nat
  entries : List FarcEntry
deriving Repr, DecidableEq

/-- FArC entry construction: when the stored uncompressed size is zero
the entry is raw, so the flag derives from the original sizes and the
uncompressed size is redefined to the compressed one. -/
def mkFArCEntry (nm : Buf) (off c u : Nat) : FarcEntry :=
  { name := nm, offset := off, compressed_size := c,
    uncompressed_size := if u = 0 then c else u,
    is_compressed := decide (u ≠ 0 ∧ c ≠ u) }

theorem readU32BE_pos {s : RState} {v : Nat} {s' : RState}
    (h : readU32BE s = .ok (v, s')) : s'.pos = s.pos + 4 := by
  simp only [readU32BE, fread] at h
  split at h
  · rename_i hlen
    cases h
    simp only []
    omega
  · cases h

theorem readCStrAux_le (buf : Buf) (pos : Nat) :
    pos ≤ (readCStrAux buf pos).2 := by
  unfold readCStrAux
  exact Nat.le_add_right _ _

/-- FArc (minimal) entry loop: while the position is below the declared
header size, read a name and two big-endian u32 fields and append a
never-compressed entry; the boundary is only checked between entries. -/
def farcMinEntries (hdr : Nat) (s : RState) :
    Except (PErr × RState) (List FarcEntry × RState) :=
  if hlt : s.pos < hdr then
    let nm := readCStrAux s.buf s.pos
    let s1 : RState := { s with pos := nm.2 }
    match hoff : readU32BE s1 with
    | .error e => .error e
    | .ok (off, s2) =>
      match hsz : readU32BE s2 with
      | .error e => .error e
      | .ok (sz, s3) =>
        match farcMinEntries hdr s3 with
        | .error e => .error e
        | .ok (rest, s4) =>
          .ok ({ name := nm.1, offset := off, compressed_size := sz,
                 uncompressed_size := sz, is_compressed := false } :: rest, s4)
  else .ok ([], s)
termination_by hdr - s.pos
decreasing_by
  have h1 := readCStrAux_le s.buf s.pos
  have h2 := readU32BE_pos hoff
  have h3 := readU32BE_pos hsz
  have h4 : s1.pos = (readCStrAux s.buf s.pos).2 := rfl
  omega

/-- FArC (legacy) entry loop: name plus three big-endian u32 fields per
entry, compression derived from the sizes. -/
def farcLowerEntries (hdr : Nat) (s : RState) :
    Except (PErr × RState) (List FarcEntry × RState) :=
  if hlt : s.pos < hdr then
    let nm := readCStrAux s.buf s.pos
    let s1 : RState := { s with pos := nm.2 }
    match hoff : readU32BE s1 with
    | .error e => .error e
    | .ok (off, s2) =>
      match hcs : readU32BE s2 with
      | .error e => .error e
      | .ok (cs, s3) =>
        match hus : readU32BE s3 with
        | .error e => .error e
        | .ok (us, s4) =>
          match farcLowerEntries hdr s4 with
          | .error e => .error e
          | .ok (rest, s5) => .ok (mkFArCEntry nm.1 off cs us :: rest, s5)
  else .ok ([], s)
termination_by hdr - s.pos
decreasing_by
  have h1 := readCStrAux_le s.buf s.pos
  have h2 := readU32BE_pos hoff
  have h3 := readU32BE_pos hcs
  have h4 := readU32BE_pos hus
  have h5 : s1.pos = (readCStrAux s.buf s.pos).2 := rfl
  omega

/-- FARC (full) entry loop: name plus three big-endian u32 fields, then
an entry-padding skip; the compression flag comes from the archive-wide
flag and the size comparison. -/
def farcFullEntries (hdr ep : Nat) (isComp : Bool) (s : RState) :
    Except (PErr × RState) (List FarcEntry × RState) :=
  if hlt : s.pos < hdr then
    let nm := readCStrAux s.buf s.pos
    let s1 : RState := { s with pos := nm.2 }
    match hoff : readU32BE s1 with
    | .error e => .error e
    | .ok (off, s2) =>
      match hcs : readU32BE s2 with
      | .error e => .error e
      | .ok (cs, s3) =>
        match hus : readU32BE s3 with
        | .error e => .error e
        | .ok (us, s4) =>
          match farcFullEntries hdr ep isComp
              (if ep > 0 then (fread ep s4).2 else s4) with
          | .error e => .error e
          | .ok (rest, s6) =>
            .ok ({ name := nm.1, offset := off, compressed_size := cs,
                   uncompressed_size := us,
                   is_compressed := isComp && decide (cs ≠ us) } :: rest, s6)
  else .ok ([], s)
termination_by hdr - s.pos
decreasing_by
  have h1 := readCStrAux_le s.buf s.pos
  have h2 := readU32BE_pos hoff
  have h3 := readU32BE_pos hcs
  have h4 := readU32BE_pos hus
  have h5 : s1.pos = (readCStrAux s.buf s.pos).2 := rfl
  have h6 : s4.pos ≤ (if ep > 0 then (fread ep s4).2 else s4).pos := by
    split
    · simp only [fread]
      omega
    · exact Nat.le_refl _
  simp only [dite_eq_ite]
  omega

/-- ASCII bytes of 'FARC'. -/
def strFARC : Buf := [0x46, 0x41, 0x52, 0x43]

/-- ASCII bytes of 'FArC'. -/
def strFArC : Buf := [0x46, 0x41, 0x72, 0x43]

/-- ASCII bytes of 'FArc'. -/
def strFArc : Buf := [0x46, 0x41, 0x72, 0x63]

/-- FarcArchive.parse: 4-byte tag, big-endian header-size field plus the
8-byte constant, then dispatch to the tag's entry-table reader.  The
full variant reads flags (bit 1 archive compression, bit 2 encryption,
fatal), a padding word, the alignment, the per-entry and header padding
lengths, and skips the header padding before its loop; the other two
variants read only the alignment. -/
def farcParse (s : RState) : Except (PErr × RState) (FarcArchive × RState) :=
  let rsig := fread 4 s
  if rsig.1 = strFARC ∨ rsig.1 = strFArC ∨ rsig.1 = strFArc then
    match readU32BE rsig.2 with
    | .error e => .error e
    | .ok (hsv, s2) =>
      let hdr := hsv + 8
      if rsig.1 = strFARC then
        match readU32BE s2 with
        | .error e => .error e
        | .ok (flags, s3) =>
          match readU32BE s3 with
          | .error e => .error e
          | .ok (_padding, s4) =>
            match readU32BE s4 with
            | .error e => .error e
            | .ok (al, s5) =>
              if flags.testBit 2 then .error (.encryptedErr, s5)
              else
                match readU32BE s5 with
                | .error e => .error e
                | .ok (ep, s6) =>
                  match readU32BE s6 with
                  | .error e => .error e
                  | .ok (hp, s7) =>
                    let s8 := if hp > 0 then (fread hp s7).2 else s7
                    match farcFullEntries hdr ep (flags.testBit 1) s8 with
                    | .error e => .error e
                    | .ok (es, s9) =>
                      .ok ({ signature := rsig.1, header_size := hdr,
                             alignment := al, entries := es }, s9)
      else if rsig.1 = strFArC then
        match readU32BE s2 with
        | .error e => .error e
        | .ok (al, s3) =>
          match farcLowerEntries hdr s3 with
          | .error e => .error e
          | .ok (es, s4) =>
            .ok ({ signature := rsig.1, header_size := hdr,
                   alignment := al, entries := es }, s4)
      else
        match readU32BE s2 with
        | .error e => .error e
        | .ok (al, s3) =>
          match farcMinEntries hdr s3 with
          | .error e => .error e
          | .ok (es, s4) =>
            .ok ({ signature := rsig.1, header_size := hdr,
                   alignment := al, entries := es }, s4)
  else .error (.farcSigErr, rsig.2)

example : decodeWord true [0x54, 0x58, 0x50, 0x03] = TXP_TEXSET_SIG := by decide
example : decodeWord false [0x03, 0x50, 0x58, 0x54] = TXP_TEXSET_SIG := by decide
example : toI32 0xFFFFFFFF = -1 := by decide
example : fread 4 (mkReader [1, 2]) = ([1, 2], { mkReader [1, 2] with pos := 2 }) := by decide
example : readCStrAux [0x61, 0x62, 0, 9] 0 = ([0x61, 0x62], 3) := by decide
example : readU32 (mkReader [1, 0, 0, 0]) = .ok (1, { mkReader [1, 0, 0, 0] with pos := 4 }) := by decide

/-- One-texture, one-subtexture TextureSet image laid out at offsets 0
(set header), 16 (texture) and 32 (subtexture), with no name table, in
the chosen byte order; used to express the endianness-invariance family. -/
def encTexSet (little : Bool) (w h fmt id : Nat) (payload : Buf) : Buf :=
  encodeWord little TXP_TEXSET_SIG ++ encodeWord little 1 ++
  encodeWord little 0 ++ encodeWord little 16 ++
  encodeWord little TXP_TEXTURE_SIG_V4 ++ encodeWord little 1 ++
  encodeWord little 0x101 ++ encodeWord little 16 ++
  encodeWord little TXP_SUBTEXTURE_SIG ++ encodeWord little w ++
  encodeWord little h ++ encodeWord little fmt ++ encodeWord little id ++
  encodeWord little payload.length ++ payload


/-! Rewriting equations for the primitive reads, and classification of
the errors each operation can raise. -/

theorem readU32_eq (s : RState) :
    readU32 s =
      if s.pos + 4 ≤ s.buf.length then
        .ok (u32At s.little s.buf s.pos, { s with pos := s.pos + 4 })
      else
        .error (.eofErr,
          { s with pos := s.pos + ((s.buf.drop s.pos).take 4).length }) := by
  by_cases hc : s.pos + 4 ≤ s.buf.length
  · have hl : ((s.buf.drop s.pos).take 4).length = 4 := by
      simp
      omega
    simp [readU32, fread, u32At, hc, hl]
  · have hl : ¬ ((s.buf.drop s.pos).take 4).length = 4 := by
      simp
      omega
    simp [readU32, fread, u32At, hc, hl]
    omega

theorem readI32_eq (s : RState) :
    readI32 s =
      if s.pos + 4 ≤ s.buf.length then
        .ok (i32At s.little s.buf s.pos, { s with pos := s.pos + 4 })
      else
        .error (.eofErr,
          { s with pos := s.pos + ((s.buf.drop s.pos).take 4).length }) := by
  by_cases hc : s.pos + 4 ≤ s.buf.length <;>
    simp [readI32, M_bind_eq, readU32_eq, hc, i32At]

theorem readU32LE_eq (s : RState) :
    readU32LE s =
      if s.pos + 4 ≤ s.buf.length then
        .ok (u32At true s.buf s.pos, { s with pos := s.pos + 4 })
      else
        .error (.eofErr,
          { s with pos := s.pos + ((s.buf.drop s.pos).take 4).length }) := by
  by_cases hc : s.pos + 4 ≤ s.buf.length
  · have hl : ((s.buf.drop s.pos).take 4).length = 4 := by
      simp
      omega
    simp [readU32LE, fread, u32At, decodeWord, hc, hl]
  · have hl : ¬ ((s.buf.drop s.pos).take 4).length = 4 := by
      simp
      omega
    simp [readU32LE, fread, hc, hl]
    omega

theorem readBytes_eq (n : Int) (s : RState) :
    readBytes n s =
      .ok (if n < 0 then s.buf.drop s.pos
           else (s.buf.drop s.pos).take n.toNat,
        { s with pos := s.pos +
            (if n < 0 then s.buf.drop s.pos
             else (s.buf.drop s.pos).take n.toNat).length }) := by
  by_cases hn : n < 0
  · have : (s.buf.drop s.pos).take (s.buf.length - s.pos) = s.buf.drop s.pos := by
      apply List.take_of_length_le
      simp
    simp [readBytes, fread, hn, this]
  · simp [readBytes, fread, hn]

theorem readU32_err_kind {s : RState} {e : PErr} {se : RState}
    (h : readU32 s = .error (e, se)) : e = .eofErr := by
  rw [readU32_eq] at h
  split at h
  · cases h
  · cases h
    rfl

theorem readI32_err_kind {s : RState} {e : PErr} {se : RState}
    (h : readI32 s = .error (e, se)) : e = .eofErr := by
  rw [readI32_eq] at h
  split at h
  · cases h
  · cases h
    rfl

theorem readU32LE_err_kind {s : RState} {e : PErr} {se : RState}
    (h : readU32LE s = .error (e, se)) : e = .eofErr := by
  rw [readU32LE_eq] at h
  split at h
  · cases h
  · cases h
    rfl

theorem readU32_ok_state {s : RState} {v : Nat} {s' : RState}
    (h : readU32 s = .ok (v, s')) :
    v = u32At s.little s.buf s.pos ∧
      s' = { s with pos := s.pos + 4 } ∧ s.pos + 4 ≤ s.buf.length := by
  rw [readU32_eq] at h
  split at h
  · cases h
    exact ⟨rfl, rfl, by assumption⟩
  · cases h

theorem readI32_ok_state {s : RState} {v : Int} {s' : RState}
    (h : readI32 s = .ok (v, s')) :
    v = i32At s.little s.buf s.pos ∧
      s' = { s with pos := s.pos + 4 } ∧ s.pos + 4 ≤ s.buf.length := by
  rw [readI32_eq] at h
  split at h
  · cases h
    exact ⟨rfl, rfl, by assumption⟩
  · cases h

/-- Truncated Texture image: a valid version-4 signature and nothing
after it, so the subcount read hits the end of the buffer. -/
def texTruncBuf : Buf := [0x54, 0x58, 0x50, 0x04]

/-- Big-endian SubTexture signature alone. -/
def subTexBEBuf : Buf := encodeWord false TXP_SUBTEXTURE_SIG

/-- SubTexture image declaring a 4-byte payload but providing only 2. -/
def subTexShortBuf : Buf :=
  encodeWord true TXP_SUBTEXTURE_SIG ++ encodeWord true 1 ++
  encodeWord true 1 ++ encodeWord true 6 ++ encodeWord true 7 ++
  encodeWord true 4 ++ [9, 9]

/-- Texture image with array_size 1, declared mip count 2 and subcount
0 (one zero grid offset follows). -/
def texZeroSubBuf : Buf :=
  encodeWord true TXP_TEXTURE_SIG_V4 ++ encodeWord true 0 ++
  encodeWord true 0x0102 ++ encodeWord true 0

/-- The encTexSet image extended with a one-entry name table at 56
pointing at the string at 60. -/
def encTexSetNamed (little : Bool) : Buf :=
  encTexSet little 1 1 6 7 [] ++ encodeWord little 60 ++ [0x61, 0]

/-- FArc archive whose declared header size (13) falls in the middle of
the first entry record. -/
def farcOverrunBuf : Buf :=
  strFArc ++ encodeWord false 5 ++ encodeWord false 16 ++ [0x61, 0] ++
  encodeWord false 32 ++ encodeWord false 4

/-- SpriteSet image whose signature word is garbage and whose counts and
offsets are all zero. -/
def spriteJunkSigBuf : Buf :=
  encodeWord true 0xDEADBEEF ++ List.replicate 28 0


/-- C1: the claim states that every structured parse call restores the
base-stack depth on every exit, including errors.  The code violates
this: Texture.read pushes a base and, when the subcount read hits the
end of the buffer, the EOFError propagates without the matching pop, so
the stack is one deeper on exit than on entry. -/
theorem texture_read_base_stack_grows_on_eof :
    Texture.read (mkReader texTruncBuf) =
      .error (.eofErr,
        { buf := texTruncBuf, pos := 4, little := true, bases := [0, 0] }) ∧
    (mkReader texTruncBuf).bases = [0] := by decide

/-- C2 counterexample: SubTexture.read raises its signature error
immediately on a big-endian-encoded valid signature even though
re-reading the same 4 bytes in the flipped endianness matches, so the
claimed universal flip-and-retry does not happen for SubTexture. -/
theorem subtexture_read_no_endian_retry :
    SubTexture.read (mkReader subTexBEBuf) =
      .error (.subSigErr,
        { buf := subTexBEBuf, pos := 4, little := true, bases := [0] }) ∧
    i32At false subTexBEBuf 0 = (TXP_SUBTEXTURE_SIG : Int) := by decide

/-- C3 counterexample: a SubTexture whose declared payload size is 4 in
a buffer holding only 2 payload bytes parses successfully with a 2-byte
payload, so a raw read past the end of the buffer neither fails nor
preserves the payload-length invariant. -/
theorem subtexture_short_payload_counterexample :
    SubTexture.read (mkReader subTexShortBuf) =
      .ok ({ width := 1, height := 1, format := 6, id := 7, data := [9, 9] },
        { buf := subTexShortBuf, pos := 26, little := true, bases := [0] }) ∧
    i32At true subTexShortBuf 20 = 4 ∧ ([9, 9] : Buf).length = 2 := by decide

/-- C6 counterexample: a Texture with array_size 1, declared mip count 2
and subcount 0 parses with effective mip_count 1, not the subcount 0 the
claim promises (the floor to 1 wins over the correction rule). -/
theorem texture_mip_zero_subcount_counterexample :
    Texture.read (mkReader texZeroSubBuf) =
      .ok ({ subtextures := [[none]], name := none,
             array_size := 1, mip_count := 1 },
        { buf := texZeroSubBuf, pos := 16, little := true, bases := [0] }) ∧
    i32At true texZeroSubBuf 4 = 0 ∧
    (i32At true texZeroSubBuf 8).emod 256 = 2 ∧
    ((i32At true texZeroSubBuf 8).ediv 256).emod 256 = 1 ∧
    (1 : Int) ≠ 0 := by decide

set_option maxHeartbeats 2000000 in
/-- C4 counterexample: the same logical TextureSet with a one-entry name
table, encoded little-endian and big-endian, decodes to different
graphs: the name-offset table is read little-endian regardless of the
cursor endianness, so the big-endian encoding resolves the name offset
to a garbage position and assigns the empty name. -/
theorem texset_name_endian_counterexample :
    TextureSet.read 56 (mkReader (encTexSetNamed true)) =
      .ok ({ textures := [{ subtextures := [[some ⟨1, 1, 6, 7, []⟩]],
                            name := some [97], array_size := 1,
                            mip_count := 1 }],
             texture_names := [(0, [97])] },
        { buf := encTexSetNamed true, pos := 16, little := true,
          bases := [0] }) ∧
    TextureSet.read 56 (mkReader (encTexSetNamed false)) =
      .ok ({ textures := [{ subtextures := [[some ⟨1, 1, 6, 7, []⟩]],
                            name := some [], array_size := 1,
                            mip_count := 1 }],
             texture_names := [(0, [])] },
        { buf := encTexSetNamed false, pos := 16, little := false,
          bases := [0] }) ∧
    some ([97] : Buf) ≠ some ([] : Buf) := by decide

/-- Unfolding equation for farcMinEntries with ordinary matches (the
definition's matches carry equation proofs for termination, which block
rewriting). -/
theorem farcMinEntries_unfold (hdr : Nat) (s : RState) :
    farcMinEntries hdr s =
      if s.pos < hdr then
        match readU32BE { s with pos := (readCStrAux s.buf s.pos).2 } with
        | .error e => .error e
        | .ok (off, s2) =>
          match readU32BE s2 with
          | .error e => .error e
          | .ok (sz, s3) =>
            match farcMinEntries hdr s3 with
            | .error e => .error e
            | .ok (rest, s4) =>
              .ok ({ name := (readCStrAux s.buf s.pos).1, offset := off,
                     compressed_size := sz, uncompressed_size := sz,
                     is_compressed := false } :: rest, s4)
      else .ok ([], s) := by
  rw [farcMinEntries.eq_def]
  by_cases hlt : s.pos < hdr
  · simp only [hlt, dite_true, if_true]
    cases hE : readU32BE { s with pos := (readCStrAux s.buf s.pos).2 } with
    | error e => rfl
    | ok p =>
      obtain ⟨off, s2⟩ := p
      dsimp only
      cases hE2 : readU32BE s2 with
      | error e => simp [hE2]
      | ok q =>
        obtain ⟨sz, s3⟩ := q
        simp [hE2]
  · simp only [hlt, dite_false, if_false]

set_option maxRecDepth 4000 in
/-- C5 counterexample: a FArc archive whose declared header boundary is
13 parses successfully; the single entry begins at position 12 (below
the boundary) and consumes bytes up to position 22, past the boundary,
with no error of any kind. -/
theorem farc_minimal_overrun_counterexample :
    farcParse (mkReader farcOverrunBuf) =
      .ok ({ signature := strFArc, header_size := 13, alignment := 16,
             entries := [{ name := [97], offset := 32, compressed_size := 4,
                           uncompressed_size := 4, is_compressed := false }] },
        { buf := farcOverrunBuf, pos := 22, little := true, bases := [0] }) ∧
    (13 : Nat) < 22 := by
  constructor
  · rw [farcParse]
    norm_num [farcOverrunBuf, strFARC, strFArC, strFArc, encodeWord,
      readU32BE, fread, mkReader, readCStrAux, readCStrCore, decodeWordLE]
    rw [farcMinEntries_unfold]
    norm_num [farcOverrunBuf, strFArc, encodeWord, readU32BE, fread,
      readCStrAux, readCStrCore, decodeWordLE]
    rw [farcMinEntries_unfold]
    norm_num [farcOverrunBuf, strFArc, encodeWord, readU32BE, fread,
      readCStrAux, readCStrCore, decodeWordLE]
  · decide

/-- Unfolding equation for farcLowerEntries with ordinary matches. -/
theorem farcLowerEntries_unfold (hdr : Nat) (s : RState) :
    farcLowerEntries hdr s =
      if s.pos < hdr then
        match readU32BE { s with pos := (readCStrAux s.buf s.pos).2 } with
        | .error e => .error e
        | .ok (off, s2) =>
          match readU32BE s2 with
          | .error e => .error e
          | .ok (cs, s3) =>
            match readU32BE s3 with
            | .error e => .error e
            | .ok (us, s4) =>
              match farcLowerEntries hdr s4 with
              | .error e => .error e
              | .ok (rest, s5) =>
                .ok (mkFArCEntry (readCStrAux s.buf s.pos).1 off cs us :: rest,
                     s5)
      else .ok ([], s) := by
  rw [farcLowerEntries.eq_def]
  by_cases hlt : s.pos < hdr
  · simp only [hlt, dite_true, if_true]
    cases hE : readU32BE { s with pos := (readCStrAux s.buf s.pos).2 } with
    | error e => rfl
    | ok p =>
      obtain ⟨off, s2⟩ := p
      dsimp only
      cases hE2 : readU32BE s2 with
      | error e => simp [hE2]
      | ok q =>
        obtain ⟨cs, s3⟩ := q
        simp only [hE2]
        cases hE3 : readU32BE s3 with
        | error e => simp [hE3]
        | ok r =>
          obtain ⟨us, s4⟩ := r
          simp [hE3]
  · simp only [hlt, dite_false, if_false]

/-- Unfolding equation for farcFullEntries with ordinary matches. -/
theorem farcFullEntries_unfold (hdr ep : Nat) (isComp : Bool) (s : RState) :
    farcFullEntries hdr ep isComp s =
      if s.pos < hdr then
        match readU32BE { s with pos := (readCStrAux s.buf s.pos).2 } with
        | .error e => .error e
        | .ok (off, s2) =>
          match readU32BE s2 with
          | .error e => .error e
          | .ok (cs, s3) =>
            match readU32BE s3 with
            | .error e => .error e
            | .ok (us, s4) =>
              match farcFullEntries hdr ep isComp
                  (if ep > 0 then (fread ep s4).2 else s4) with
              | .error e => .error e
              | .ok (rest, s6) =>
                .ok ({ name := (readCStrAux s.buf s.pos).1, offset := off,
                       compressed_size := cs, uncompressed_size := us,
                       is_compressed := isComp && decide (cs ≠ us) } :: rest,
                     s6)
      else .ok ([], s) := by
  rw [farcFullEntries.eq_def]
  by_cases hlt : s.pos < hdr
  · simp only [hlt, dite_true, if_true]
    cases hE : readU32BE { s with pos := (readCStrAux s.buf s.pos).2 } with
    | error e => rfl
    | ok p =>
      obtain ⟨off, s2⟩ := p
      dsimp only
      cases hE2 : readU32BE s2 with
      | error e => simp [hE2]
      | ok q =>
        obtain ⟨cs, s3⟩ := q
        simp only [hE2]
        cases hE3 : readU32BE s3 with
        | error e => simp [hE3]
        | ok r =>
          obtain ⟨us, s4⟩ := r
          simp [hE3]
  · simp only [hlt, dite_false, if_false]

theorem farcMinEntries_boundary {hdr : Nat} :
    ∀ (n : Nat) (s : RState), hdr - s.pos = n →
      ∀ es s', farcMinEntries hdr s = .ok (es, s') → hdr ≤ s'.pos := by
  intro n
  induction n using Nat.strong_induction_on with
  | _ n ih =>
    intro s hn es s' h
    rw [farcMinEntries_unfold] at h
    split at h
    · rename_i hlt
      cases hE : readU32BE { s with pos := (readCStrAux s.buf s.pos).2 } with
      | error e => simp [hE] at h
      | ok p =>
        obtain ⟨off, s2⟩ := p
        simp only [hE] at h
        cases hE2 : readU32BE s2 with
        | error e => simp [hE2] at h
        | ok q =>
          obtain ⟨sz, s3⟩ := q
          simp only [hE2] at h
          cases hR : farcMinEntries hdr s3 with
          | error e => simp [hR] at h
          | ok r =>
            obtain ⟨rest, s4⟩ := r
            simp only [hR] at h
            cases h
            have hp1 := readCStrAux_le s.buf s.pos
            have hp2 := readU32BE_pos hE
            have hp3 := readU32BE_pos hE2
            exact ih (hdr - s3.pos) (by simp at hp2; omega) s3 rfl rest s' hR
    · rename_i hge
      cases h
      omega

theorem farcLowerEntries_boundary {hdr : Nat} :
    ∀ (n : Nat) (s : RState), hdr - s.pos = n →
      ∀ es s', farcLowerEntries hdr s = .ok (es, s') → hdr ≤ s'.pos := by
  intro n
  induction n using Nat.strong_induction_on with
  | _ n ih =>
    intro s hn es s' h
    rw [farcLowerEntries_unfold] at h
    split at h
    · rename_i hlt
      cases hE : readU32BE { s with pos := (readCStrAux s.buf s.pos).2 } with
      | error e => simp [hE] at h
      | ok p =>
        obtain ⟨off, s2⟩ := p
        simp only [hE] at h
        cases hE2 : readU32BE s2 with
        | error e => simp [hE2] at h
        | ok q =>
          obtain ⟨cs, s3⟩ := q
          simp only [hE2] at h
          cases hE3 : readU32BE s3 with
          | error e => simp [hE3] at h
          | ok r =>
            obtain ⟨us, s4⟩ := r
            simp only [hE3] at h
            cases hR : farcLowerEntries hdr s4 with
            | error e => simp [hR] at h
            | ok r2 =>
              obtain ⟨rest, s5⟩ := r2
              simp only [hR] at h
              cases h
              have hp1 := readCStrAux_le s.buf s.pos
              have hp2 := readU32BE_pos hE
              have hp3 := readU32BE_pos hE2
              have hp4 := readU32BE_pos hE3
              exact ih (hdr - s4.pos) (by simp at hp2; omega) s4 rfl rest s' hR
    · rename_i hge
      cases h
      omega

theorem farcFullEntries_boundary {hdr ep : Nat} {isComp : Bool} :
    ∀ (n : Nat) (s : RState), hdr - s.pos = n →
      ∀ es s', farcFullEntries hdr ep isComp s = .ok (es, s') →
        hdr ≤ s'.pos := by
  intro n
  induction n using Nat.strong_induction_on with
  | _ n ih =>
    intro s hn es s' h
    rw [farcFullEntries_unfold] at h
    split at h
    · rename_i hlt
      cases hE : readU32BE { s with pos := (readCStrAux s.buf s.pos).2 } with
      | error e => simp [hE] at h
      | ok p =>
        obtain ⟨off, s2⟩ := p
        simp only [hE] at h
        cases hE2 : readU32BE s2 with
        | error e => simp [hE2] at h
        | ok q =>
          obtain ⟨cs, s3⟩ := q
          simp only [hE2] at h
          cases hE3 : readU32BE s3 with
          | error e => simp [hE3] at h
          | ok r =>
            obtain ⟨us, s4⟩ := r
            simp only [hE3] at h
            cases hR : farcFullEntries hdr ep isComp
                (if ep > 0 then (fread ep s4).2 else s4) with
            | error e => simp [hR] at h
            | ok r2 =>
              obtain ⟨rest, s6⟩ := r2
              simp only [hR] at h
              cases h
              have hp1 := readCStrAux_le s.buf s.pos
              have hp2 := readU32BE_pos hE
              have hp3 := readU32BE_pos hE2
              have hp4 := readU32BE_pos hE3
              have hp5 : s4.pos ≤ (if ep > 0 then (fread ep s4).2 else s4).pos := by
                split
                · simp only [fread]
                  omega
                · exact Nat.le_refl _
              exact ih (hdr - (if ep > 0 then (fread ep s4).2 else s4).pos)
                (by simp at hp2; omega) _ rfl rest s' hR
    · rename_i hge
      cases h
      omega

/-- FArc archive with an empty entry table: declared boundary 8 is
already below the position after the alignment word. -/
def farcEmptyBuf : Buf :=
  strFArc ++ encodeWord false 0 ++ encodeWord false 16

/-- C5 (amended): entry-table parsing stops at the first between-entry
check at or past the declared header-size boundary, so on success the
final position is at or past that boundary for every archive variant;
an entry that begins below the boundary may consume bytes past it
silently (no MalformedHeader is ever raised for overrun). -/
theorem farc_parse_stops_at_or_past_boundary :
    ∀ (s : RState) (a : FarcArchive) (s' : RState),
      farcParse s = .ok (a, s') → a.header_size ≤ s'.pos := by
  intro s a s' h
  unfold farcParse at h
  dsimp only at h
  split at h
  · cases hH : readU32BE (fread 4 s).2 with
    | error e => simp [hH] at h
    | ok p =>
      obtain ⟨hsv, s2⟩ := p
      simp only [hH] at h
      split at h
      · cases hF : readU32BE s2 with
        | error e => simp [hF] at h
        | ok p2 =>
          obtain ⟨flags, s3⟩ := p2
          simp only [hF] at h
          cases hP : readU32BE s3 with
          | error e => simp [hP] at h
          | ok p3 =>
            obtain ⟨_padding, s4⟩ := p3
            simp only [hP] at h
            cases hA : readU32BE s4 with
            | error e => simp [hA] at h
            | ok p4 =>
              obtain ⟨al, s5⟩ := p4
              simp only [hA] at h
              split at h
              · simp at h
              · cases hEp : readU32BE s5 with
                | error e => simp [hEp] at h
                | ok p5 =>
                  obtain ⟨ep, s6⟩ := p5
                  simp only [hEp] at h
                  cases hHp : readU32BE s6 with
                  | error e => simp [hHp] at h
                  | ok p6 =>
                    obtain ⟨hp, s7⟩ := p6
                    simp only [hHp] at h
                    cases hL : farcFullEntries (hsv + 8) ep (flags.testBit 1)
                        (if hp > 0 then (fread hp s7).2 else s7) with
                    | error e => simp [hL] at h
                    | ok pl =>
                      obtain ⟨es, s9⟩ := pl
                      simp only [hL] at h
                      cases h
                      exact farcFullEntries_boundary _ _ rfl _ _ hL
      · split at h
        · cases hA : readU32BE s2 with
          | error e => simp [hA] at h
          | ok p2 =>
            obtain ⟨al, s3⟩ := p2
            simp only [hA] at h
            cases hL : farcLowerEntries (hsv + 8) s3 with
            | error e => simp [hL] at h
            | ok pl =>
              obtain ⟨es, s4⟩ := pl
              simp only [hL] at h
              cases h
              exact farcLowerEntries_boundary _ _ rfl _ _ hL
        · cases hA : readU32BE s2 with
          | error e => simp [hA] at h
          | ok p2 =>
            obtain ⟨al, s3⟩ := p2
            simp only [hA] at h
            cases hL : farcMinEntries (hsv + 8) s3 with
            | error e => simp [hL] at h
            | ok pl =>
              obtain ⟨es, s4⟩ := pl
              simp only [hL] at h
              cases h
              exact farcMinEntries_boundary _ _ rfl _ _ hL
  · simp at h

/-- C5 witness: the boundary theorem applied to a concrete empty FArc
archive whose parse succeeds with final position 12 and boundary 8. -/
theorem farc_parse_boundary_witness :
    ({ signature := strFArc, header_size := 8, alignment := 16,
       entries := [] } : FarcArchive).header_size ≤
      ({ buf := farcEmptyBuf, pos := 12, little := true,
         bases := [0] } : RState).pos := by
  have hp : farcParse (mkReader farcEmptyBuf) =
      .ok ({ signature := strFArc, header_size := 8, alignment := 16,
             entries := [] },
        { buf := farcEmptyBuf, pos := 12, little := true, bases := [0] }) := by
    rw [farcParse]
    norm_num [farcEmptyBuf, strFARC, strFArC, strFArc, encodeWord,
      readU32BE, fread, mkReader, readCStrAux, readCStrCore, decodeWordLE]
    rw [farcMinEntries_unfold]
    norm_num
  exact farc_parse_stops_at_or_past_boundary _ _ _ hp

theorem mkFArCEntry_isComp (nm : Buf) (off c u : Nat) :
    (mkFArCEntry nm off c u).is_compressed = true ↔
      ((mkFArCEntry nm off c u).uncompressed_size ≠ 0 ∧
        (mkFArCEntry nm off c u).compressed_size ≠
          (mkFArCEntry nm off c u).uncompressed_size) := by
  by_cases hu : u = 0 <;> simp [mkFArCEntry, hu]

theorem farcLowerEntries_mem {hdr : Nat} :
    ∀ (n : Nat) (s : RState), hdr - s.pos = n →
      ∀ es s', farcLowerEntries hdr s = .ok (es, s') →
        ∀ e ∈ es, ∃ nm off cs us, e = mkFArCEntry nm off cs us := by
  intro n
  induction n using Nat.strong_induction_on with
  | _ n ih =>
    intro s hn es s' h
    rw [farcLowerEntries_unfold] at h
    split at h
    · rename_i hlt
      cases hE : readU32BE { s with pos := (readCStrAux s.buf s.pos).2 } with
      | error e => simp [hE] at h
      | ok p =>
        obtain ⟨off, s2⟩ := p
        simp only [hE] at h
        cases hE2 : readU32BE s2 with
        | error e => simp [hE2] at h
        | ok q =>
          obtain ⟨cs, s3⟩ := q
          simp only [hE2] at h
          cases hE3 : readU32BE s3 with
          | error e => simp [hE3] at h
          | ok r =>
            obtain ⟨us, s4⟩ := r
            simp only [hE3] at h
            cases hR : farcLowerEntries hdr s4 with
            | error e => simp [hR] at h
            | ok r2 =>
              obtain ⟨rest, s5⟩ := r2
              simp only [hR] at h
              cases h
              intro e he
              rcases List.mem_cons.mp he with he1 | he2
              · exact ⟨_, _, _, _, he1⟩
              · have hp1 := readCStrAux_le s.buf s.pos
                have hp2 := readU32BE_pos hE
                have hp3 := readU32BE_pos hE2
                have hp4 := readU32BE_pos hE3
                exact ih (hdr - s4.pos) (by simp at hp2; omega) s4 rfl
                  rest s' hR e he2
    · cases h
      intro e he
      cases he

/-- C7: for every entry stored by the FArC (legacy) entry reader, the
is_compressed flag holds exactly when the stored uncompressed size is
nonzero and differs from the compressed size; and an entry whose read
uncompressed size is zero is stored uncompressed with its uncompressed
size redefined to the compressed size. -/
theorem farc_lowercase_compression_derivation :
    (∀ (hdr : Nat) (s : RState) (es : List FarcEntry) (s' : RState),
      farcLowerEntries hdr s = .ok (es, s') →
        ∀ e ∈ es, (e.is_compressed = true ↔
          (e.uncompressed_size ≠ 0 ∧
            e.compressed_size ≠ e.uncompressed_size))) ∧
    (∀ (nm : Buf) (off c : Nat), mkFArCEntry nm off c 0 =
      { name := nm, offset := off, compressed_size := c,
        uncompressed_size := c, is_compressed := false }) := by
  constructor
  · intro hdr s es s' h e he
    obtain ⟨nm, off, cs, us, rfl⟩ :=
      farcLowerEntries_mem (hdr - s.pos) s rfl es s' h e he
    exact mkFArCEntry_isComp nm off cs us
  · intro nm off c
    simp [mkFArCEntry]

/-- FArC archive with a single entry whose read uncompressed size is
zero (name 'a', offset 32, compressed size 5). -/
def farcLowerBuf : Buf :=
  strFArC ++ encodeWord false 5 ++ encodeWord false 16 ++ [0x61, 0] ++
  encodeWord false 32 ++ encodeWord false 5 ++ encodeWord false 0

/-- C7 witness: the derivation theorem applied to the concrete one-entry
FArC entry table. -/
theorem farc_lowercase_compression_derivation_witness :
    ((mkFArCEntry [97] 32 5 0).is_compressed = true ↔
      ((mkFArCEntry [97] 32 5 0).uncompressed_size ≠ 0 ∧
        (mkFArCEntry [97] 32 5 0).compressed_size ≠
          (mkFArCEntry [97] 32 5 0).uncompressed_size)) ∧
    mkFArCEntry [97] 32 5 0 =
      { name := [97], offset := 32, compressed_size := 5,
        uncompressed_size := 5, is_compressed := false } := by
  have hp : farcLowerEntries 13
      ({ buf := farcLowerBuf, pos := 12, little := true,
         bases := [0] } : RState) =
      .ok ([mkFArCEntry [97] 32 5 0],
        { buf := farcLowerBuf, pos := 26, little := true, bases := [0] }) := by
    rw [farcLowerEntries_unfold]
    norm_num [farcLowerBuf, strFArC, encodeWord, readU32BE, fread,
      readCStrAux, readCStrCore, decodeWordLE]
    rw [farcLowerEntries_unfold]
    norm_num [farcLowerBuf, mkFArCEntry]
  constructor
  · exact farc_lowercase_compression_derivation.1 13 _ _ _ hp
      (mkFArCEntry [97] 32 5 0) (by simp)
  · exact farc_lowercase_compression_derivation.2 [97] 32 5

/-- Eight bytes holding the words 1 and 2. -/
def c8buf : Buf := [1, 0, 0, 0, 2, 0, 0, 0]

/-- C8: read_at_offset returns none exactly when the offset is zero (the
state untouched); for a nonzero offset it runs the decoder from position
base + offset and, when the decoder succeeds, returns its value with the
cursor position restored to the position before the call. -/
theorem read_at_offset_spec :
    (∀ (α : Type) (f : M α) (s : RState),
      readAtOffset 0 f s = .ok (none, s)) ∧
    (∀ (α : Type) (off : Nat) (f : M α) (s : RState) (r : Option α)
        (s' : RState),
      readAtOffset off f s = .ok (r, s') → (r = none ↔ off = 0)) ∧
    (∀ (α : Type) (off : Nat) (f : M α) (s : RState) (v : α) (s2 : RState),
      off ≠ 0 → f { s with pos := curBase s + off } = .ok (v, s2) →
      readAtOffset off f s = .ok (some v, { s2 with pos := s.pos })) := by
  refine ⟨?_, ?_, ?_⟩
  · intro α f s
    simp [readAtOffset]
  · intro α off f s r s' h
    unfold readAtOffset at h
    split at h
    · cases h
      rename_i hz
      simp [hz]
    · rename_i hz
      cases hf : f { s with pos := curBase s + off } with
      | error e => simp [hf] at h
      | ok p =>
        obtain ⟨v, s2⟩ := p
        simp only [hf] at h
        cases h
        simp [hz]
  · intro α off f s v s2 hz hf
    simp [readAtOffset, hz, hf]

/-- C8 witness: the read_at_offset contract applied to a concrete
two-word buffer with the u32 decoder. -/
theorem read_at_offset_spec_witness :
    readAtOffset 0 readU32 (mkReader c8buf) = .ok (none, mkReader c8buf) ∧
    (some 2 = (none : Option Nat) ↔ (4 : Nat) = 0) ∧
    readAtOffset 4 readU32 (mkReader c8buf) =
      .ok (some 2, { buf := c8buf, pos := 0, little := true,
                     bases := [0] }) := by
  refine ⟨read_at_offset_spec.1 Nat readU32 (mkReader c8buf), ?_, ?_⟩
  · exact read_at_offset_spec.2.1 Nat 4 readU32 (mkReader c8buf) (some 2)
      { buf := c8buf, pos := 0, little := true, bases := [0] } (by decide)
  · exact read_at_offset_spec.2.2 Nat 4 readU32 (mkReader c8buf) 2
      { buf := c8buf, pos := 8, little := true, bases := [0] }
      (by decide) (by decide)

@[simp] theorem M_ite_app {α : Type} (c : Prop) [Decidable c]
    (m1 m2 : M α) (s : RState) :
    (if c then m1 else m2) s = if c then m1 s else m2 s := by
  split <;> rfl

/-- State reached by a computation, whether it succeeded or raised. -/
def outState {α : Type} : Except (PErr × RState) (α × RState) → RState
  | .ok (_, s') => s'
  | .error (_, se) => se

/-- The computation never touches the base stack, the buffer or the
endianness, on any path. -/
def presB {α : Type} (m : M α) : Prop :=
  ∀ s : RState, (outState (m s)).bases = s.bases ∧
    (outState (m s)).buf = s.buf ∧ (outState (m s)).little = s.little

/-- Every error the computation can raise has a kind satisfying E. -/
def errKinds {α : Type} (E : PErr → Prop) (m : M α) : Prop :=
  ∀ s e se, m s = .error (e, se) → E e

theorem presB_bind {α β : Type} {m : M α} {f : α → M β}
    (hm : presB m) (hf : ∀ a, presB (f a)) : presB (m >>= f) := by
  intro s
  have h1 := hm s
  rw [M_bind_eq]
  cases hE : m s with
  | error e =>
    rw [hE] at h1
    exact h1
  | ok p =>
    obtain ⟨a, s1⟩ := p
    rw [hE] at h1
    have h2 := hf a s1
    simp only [outState] at h1
    refine ⟨?_, ?_, ?_⟩ <;> simp [h2.1, h2.2.1, h2.2.2, h1.1, h1.2.1, h1.2.2]

theorem presB_pure {α : Type} (a : α) : presB (pure a : M α) := by
  intro s
  simp [M_pure_eq, outState]

theorem presB_ite {α : Type} {c : Prop} [Decidable c] {m1 m2 : M α}
    (h1 : presB m1) (h2 : presB m2) : presB (if c then m1 else m2) := by
  split <;> assumption

theorem presB_raise {α : Type} (e : PErr) : presB (pythonRaise e : M α) := by
  intro s
  simp [pythonRaise, outState]

theorem presB_readU32 : presB readU32 := by
  intro s
  rw [readU32_eq]
  split <;> simp [outState]

theorem presB_readI32 : presB readI32 := by
  intro s
  rw [readI32_eq]
  split <;> simp [outState]

theorem presB_readU32LE : presB readU32LE := by
  intro s
  rw [readU32LE_eq]
  split <;> simp [outState]

theorem presB_readOffset : presB readOffset := presB_readU32

theorem presB_readF32 : presB readF32 := presB_readU32

theorem presB_readBytes (n : Int) : presB (readBytes n) := by
  intro s
  rw [readBytes_eq]
  simp [outState]

theorem presB_readCStrM : presB readCStrM := by
  intro s
  simp [readCStrM, outState]

theorem presB_tellM : presB tellM := by
  intro s
  simp [tellM, outState]

theorem presB_seekTo (p : Nat) : presB (seekTo p) := by
  intro s
  simp [seekTo, outState]

theorem presB_seekBaseRel (off : Nat) : presB (seekBaseRel off) := by
  intro s
  simp [seekBaseRel, outState]

theorem presB_getBuf : presB getBuf := by
  intro s
  simp [getBuf, outState]

theorem errKinds_bind {α β : Type} {E : PErr → Prop} {m : M α}
    {f : α → M β} (hm : errKinds E m) (hf : ∀ a, errKinds E (f a)) :
    errKinds E (m >>= f) := by
  intro s e se h
  rw [M_bind_eq] at h
  cases hE : m s with
  | error p =>
    rw [hE] at h
    cases h
    exact hm s _ _ hE
  | ok p =>
    obtain ⟨a, s1⟩ := p
    rw [hE] at h
    exact hf a s1 e se h

theorem errKinds_pure {α : Type} (E : PErr → Prop) (a : α) :
    errKinds E (pure a : M α) := by
  intro s e se h
  simp [M_pure_eq] at h

theorem errKinds_ite {α : Type} {E : PErr → Prop} {c : Prop} [Decidable c]
    {m1 m2 : M α} (h1 : errKinds E m1) (h2 : errKinds E m2) :
    errKinds E (if c then m1 else m2) := by
  split <;> assumption

theorem errKinds_raise {α : Type} {E : PErr → Prop} (e : PErr) (he : E e) :
    errKinds E (pythonRaise e : M α) := by
  intro s e' se h
  simp [pythonRaise] at h
  exact h.1 ▸ he

theorem errKinds_readU32 {E : PErr → Prop} (he : E .eofErr) :
    errKinds E readU32 := by
  intro s e se h
  rw [readU32_eq] at h
  split at h
  · cases h
  · cases h
    exact he

theorem errKinds_readI32 {E : PErr → Prop} (he : E .eofErr) :
    errKinds E readI32 := by
  intro s e se h
  rw [readI32_eq] at h
  split at h
  · cases h
  · cases h
    exact he

theorem errKinds_readU32LE {E : PErr → Prop} (he : E .eofErr) :
    errKinds E readU32LE := by
  intro s e se h
  rw [readU32LE_eq] at h
  split at h
  · cases h
  · cases h
    exact he

theorem errKinds_readBytes {E : PErr → Prop} (n : Int) :
    errKinds E (readBytes n) := by
  intro s e se h
  rw [readBytes_eq] at h
  cases h

theorem errKinds_noFail {E : PErr → Prop} {α : Type} {m : M α}
    (hm : ∀ s, ∃ v s', m s = .ok (v, s')) : errKinds E m := by
  intro s e se h
  obtain ⟨v, s', hv⟩ := hm s
  rw [hv] at h
  cases h

theorem errKinds_tellM {E : PErr → Prop} : errKinds E tellM :=
  errKinds_noFail (fun s => ⟨s.pos, s, rfl⟩)

theorem errKinds_seekTo {E : PErr → Prop} (p : Nat) :
    errKinds E (seekTo p) :=
  errKinds_noFail (fun s => ⟨(), _, rfl⟩)

theorem errKinds_seekBaseRel {E : PErr → Prop} (off : Nat) :
    errKinds E (seekBaseRel off) :=
  errKinds_noFail (fun s => ⟨(), _, rfl⟩)

theorem errKinds_readCStrM {E : PErr → Prop} : errKinds E readCStrM :=
  errKinds_noFail (fun s => ⟨_, _, rfl⟩)

theorem errKinds_getBuf {E : PErr → Prop} : errKinds E getBuf :=
  errKinds_noFail (fun s => ⟨_, _, rfl⟩)

theorem presB_subTexRead : presB SubTexture.read := by
  unfold SubTexture.read
  apply presB_bind presB_readI32
  intro sig
  apply presB_ite
  · apply presB_bind presB_readI32
    intro w
    apply presB_bind presB_readI32
    intro h
    apply presB_bind presB_readI32
    intro fmt
    apply presB_bind presB_readI32
    intro i
    apply presB_bind presB_readI32
    intro dsz
    apply presB_bind (presB_readBytes dsz)
    intro d
    exact presB_pure _
  · exact presB_raise _

theorem errKinds_subTexRead :
    errKinds (fun e => e = .eofErr ∨ e = .subSigErr) SubTexture.read := by
  unfold SubTexture.read
  refine errKinds_bind (errKinds_readI32 (Or.inl rfl)) ?_
  intro sig
  refine errKinds_ite ?_ (errKinds_raise _ (Or.inr rfl))
  refine errKinds_bind (errKinds_readI32 (Or.inl rfl)) ?_
  intro w
  refine errKinds_bind (errKinds_readI32 (Or.inl rfl)) ?_
  intro h
  refine errKinds_bind (errKinds_readI32 (Or.inl rfl)) ?_
  intro fmt
  refine errKinds_bind (errKinds_readI32 (Or.inl rfl)) ?_
  intro i
  refine errKinds_bind (errKinds_readI32 (Or.inl rfl)) ?_
  intro dsz
  refine errKinds_bind (errKinds_readBytes dsz) ?_
  intro d
  exact errKinds_pure _ _

theorem presB_readMipCell : presB readMipCell := by
  unfold readMipCell
  refine presB_bind presB_readOffset ?_
  intro off
  refine presB_ite (presB_pure _) ?_
  refine presB_bind presB_tellM ?_
  intro cur
  refine presB_bind (presB_seekBaseRel off) ?_
  intro u
  refine presB_bind presB_subTexRead ?_
  intro st
  refine presB_bind (presB_seekTo cur) ?_
  intro u2
  exact presB_pure _

theorem errKinds_readMipCell :
    errKinds (fun e => e = .eofErr ∨ e = .subSigErr) readMipCell := by
  unfold readMipCell
  refine errKinds_bind (errKinds_readU32 (Or.inl rfl)) ?_
  intro off
  refine errKinds_ite (errKinds_pure _ _) ?_
  refine errKinds_bind errKinds_tellM ?_
  intro cur
  refine errKinds_bind (errKinds_seekBaseRel off) ?_
  intro u
  refine errKinds_bind errKinds_subTexRead ?_
  intro st
  refine errKinds_bind (errKinds_seekTo cur) ?_
  intro u2
  exact errKinds_pure _ _

theorem presB_readMipRow : ∀ k, presB (readMipRow k) := by
  intro k
  induction k with
  | zero => exact presB_pure _
  | succ k ih =>
    unfold readMipRow
    refine presB_bind presB_readMipCell ?_
    intro c
    refine presB_bind ih ?_
    intro rest
    exact presB_pure _

theorem errKinds_readMipRow :
    ∀ k, errKinds (fun e => e = .eofErr ∨ e = .subSigErr) (readMipRow k) := by
  intro k
  induction k with
  | zero => exact errKinds_pure _ _
  | succ k ih =>
    unfold readMipRow
    refine errKinds_bind errKinds_readMipCell ?_
    intro c
    refine errKinds_bind ih ?_
    intro rest
    exact errKinds_pure _ _

theorem presB_readGrid (mip : Nat) : ∀ k, presB (readGrid mip k) := by
  intro k
  induction k with
  | zero => exact presB_pure _
  | succ k ih =>
    unfold readGrid
    refine presB_bind (presB_readMipRow mip) ?_
    intro row
    refine presB_bind ih ?_
    intro rest
    exact presB_pure _

theorem errKinds_readGrid (mip : Nat) :
    ∀ k, errKinds (fun e => e = .eofErr ∨ e = .subSigErr) (readGrid mip k) := by
  intro k
  induction k with
  | zero => exact errKinds_pure _ _
  | succ k ih =>
    unfold readGrid
    refine errKinds_bind (errKinds_readMipRow mip) ?_
    intro row
    refine errKinds_bind ih ?_
    intro rest
    exact errKinds_pure _ _

theorem presB_readOffsetTable : ∀ k, presB (readOffsetTable k) := by
  intro k
  induction k with
  | zero => exact presB_pure _
  | succ k ih =>
    unfold readOffsetTable
    refine presB_bind presB_readOffset ?_
    intro o
    refine presB_bind ih ?_
    intro rest
    exact presB_pure _

theorem errKinds_readOffsetTable {E : PErr → Prop} (he : E .eofErr) :
    ∀ k, errKinds E (readOffsetTable k) := by
  intro k
  induction k with
  | zero => exact errKinds_pure _ _
  | succ k ih =>
    unfold readOffsetTable
    refine errKinds_bind (errKinds_readU32 he) ?_
    intro o
    refine errKinds_bind ih ?_
    intro rest
    exact errKinds_pure _ _

theorem presB_readNameOffsetsLE : ∀ k, presB (readNameOffsetsLE k) := by
  intro k
  induction k with
  | zero => exact presB_pure _
  | succ k ih =>
    unfold readNameOffsetsLE
    refine presB_bind presB_readU32LE ?_
    intro o
    refine presB_bind ih ?_
    intro rest
    exact presB_pure _

theorem errKinds_readNameOffsetsLE {E : PErr → Prop} (he : E .eofErr) :
    ∀ k, errKinds E (readNameOffsetsLE k) := by
  intro k
  induction k with
  | zero => exact errKinds_pure _ _
  | succ k ih =>
    unfold readNameOffsetsLE
    refine errKinds_bind (errKinds_readU32LE he) ?_
    intro o
    refine errKinds_bind ih ?_
    intro rest
    exact errKinds_pure _ _

theorem presB_spriteRead : presB Sprite.read := by
  unfold Sprite.read
  refine presB_bind presB_readU32 ?_
  intro ti
  refine presB_bind presB_readU32 ?_
  intro r
  refine presB_bind presB_readF32 ?_
  intro bx
  refine presB_bind presB_readF32 ?_
  intro b2
  refine presB_bind presB_readF32 ?_
  intro ex
  refine presB_bind presB_readF32 ?_
  intro e2
  refine presB_bind presB_readF32 ?_
  intro px
  refine presB_bind presB_readF32 ?_
  intro py
  refine presB_bind presB_readF32 ?_
  intro w
  refine presB_bind presB_readF32 ?_
  intro h
  exact presB_pure _

theorem errKinds_spriteRead {E : PErr → Prop} (he : E .eofErr) :
    errKinds E Sprite.read := by
  unfold Sprite.read
  refine errKinds_bind (errKinds_readU32 he) ?_
  intro ti
  refine errKinds_bind (errKinds_readU32 he) ?_
  intro r
  refine errKinds_bind (errKinds_readU32 he) ?_
  intro bx
  refine errKinds_bind (errKinds_readU32 he) ?_
  intro b2
  refine errKinds_bind (errKinds_readU32 he) ?_
  intro ex
  refine errKinds_bind (errKinds_readU32 he) ?_
  intro e2
  refine errKinds_bind (errKinds_readU32 he) ?_
  intro px
  refine errKinds_bind (errKinds_readU32 he) ?_
  intro py
  refine errKinds_bind (errKinds_readU32 he) ?_
  intro w
  refine errKinds_bind (errKinds_readU32 he) ?_
  intro h
  exact errKinds_pure _ _

theorem presB_readSprites : ∀ k, presB (readSprites k) := by
  intro k
  induction k with
  | zero => exact presB_pure _
  | succ k ih =>
    unfold readSprites
    refine presB_bind presB_spriteRead ?_
    intro sp
    refine presB_bind ih ?_
    intro rest
    exact presB_pure _

theorem errKinds_readSprites {E : PErr → Prop} (he : E .eofErr) :
    ∀ k, errKinds E (readSprites k) := by
  intro k
  induction k with
  | zero => exact errKinds_pure _ _
  | succ k ih =>
    unfold readSprites
    refine errKinds_bind (errKinds_spriteRead he) ?_
    intro sp
    refine errKinds_bind ih ?_
    intro rest
    exact errKinds_pure _ _

theorem bind_tellM {β : Type} (f : Nat → M β) (s : RState) :
    (tellM >>= f) s = f s.pos s := rfl

theorem bind_pushBase {β : Type} (b : Nat) (f : Unit → M β) (s : RState) :
    (pushBase b >>= f) s = f () { s with bases := b :: s.bases } := rfl

theorem bind_seekTo {β : Type} (p : Nat) (f : Unit → M β) (s : RState) :
    (seekTo p >>= f) s = f () { s with pos := p } := rfl

theorem bind_seekBaseRel {β : Type} (off : Nat) (f : Unit → M β)
    (s : RState) :
    (seekBaseRel off >>= f) s = f () { s with pos := curBase s + off } := rfl

theorem bind_setLittle {β : Type} (b : Bool) (f : Unit → M β) (s : RState) :
    (setLittle b >>= f) s = f () { s with little := b } := rfl

theorem bind_getBuf {β : Type} (f : Buf → M β) (s : RState) :
    (getBuf >>= f) s = f s.buf s := rfl

theorem bind_readCStrM {β : Type} (f : Buf → M β) (s : RState) :
    (readCStrM >>= f) s = f (readCStrAux s.buf s.pos).1
      { s with pos := (readCStrAux s.buf s.pos).2 } := rfl

theorem bind_readI32 {β : Type} (f : Int → M β) (s : RState) :
    (readI32 >>= f) s =
      if s.pos + 4 ≤ s.buf.length then
        f (i32At s.little s.buf s.pos) { s with pos := s.pos + 4 }
      else .error (.eofErr,
        { s with pos := s.pos + ((s.buf.drop s.pos).take 4).length }) := by
  rw [M_bind_eq, readI32_eq]
  by_cases hc : s.pos + 4 ≤ s.buf.length <;> simp [hc]

theorem bind_readU32 {β : Type} (f : Nat → M β) (s : RState) :
    (readU32 >>= f) s =
      if s.pos + 4 ≤ s.buf.length then
        f (u32At s.little s.buf s.pos) { s with pos := s.pos + 4 }
      else .error (.eofErr,
        { s with pos := s.pos + ((s.buf.drop s.pos).take 4).length }) := by
  rw [M_bind_eq, readU32_eq]
  by_cases hc : s.pos + 4 ≤ s.buf.length <;> simp [hc]

theorem bind_readU32LE {β : Type} (f : Nat → M β) (s : RState) :
    (readU32LE >>= f) s =
      if s.pos + 4 ≤ s.buf.length then
        f (u32At true s.buf s.pos) { s with pos := s.pos + 4 }
      else .error (.eofErr,
        { s with pos := s.pos + ((s.buf.drop s.pos).take 4).length }) := by
  rw [M_bind_eq, readU32LE_eq]
  by_cases hc : s.pos + 4 ≤ s.buf.length <;> simp [hc]

theorem bind_readBytes {β : Type} (n : Int) (f : Buf → M β) (s : RState) :
    (readBytes n >>= f) s =
      f (if n < 0 then s.buf.drop s.pos else (s.buf.drop s.pos).take n.toNat)
        { s with pos := s.pos +
            (if n < 0 then s.buf.drop s.pos
             else (s.buf.drop s.pos).take n.toNat).length } := by
  rw [M_bind_eq, readBytes_eq]

theorem textureRead_ok_spec {s : RState} {t : Texture} {s' : RState}
    (h : Texture.read s = .ok (t, s')) :
    s'.bases = s.bases ∧ s'.buf = s.buf ∧ s'.little = s.little ∧
    t.name = none ∧
    t.array_size = (textureDims (i32At s.little s.buf (s.pos + 4))
      (i32At s.little s.buf (s.pos + 8))).1 ∧
    t.mip_count = (textureDims (i32At s.little s.buf (s.pos + 4))
      (i32At s.little s.buf (s.pos + 8))).2 ∧
    1 ≤ t.array_size ∧ 1 ≤ t.mip_count ∧
    (i32At s.little s.buf s.pos = (TXP_TEXTURE_SIG_V4 : Int) ∨
     i32At s.little s.buf s.pos = (TXP_TEXTURE_SIG_V5 : Int)) := by
  unfold Texture.read at h
  simp only [bind_tellM, bind_pushBase, bind_readI32, M_ite_app,
    M_pure_eq] at h
  split at h
  · -- signature word readable
    split at h
    · -- signature matches a version constant
      split at h
      · -- subcount readable
        split at h
        · -- info readable; grid stage next
          rw [M_bind_eq] at h
          split at h
          · simp at h
          · rename_i grid s5 hG
            have hp := presB_readGrid
              (textureDims (i32At s.little s.buf (s.pos + 4))
                (i32At s.little s.buf (s.pos + 4 + 4))).2.toNat
              (textureDims (i32At s.little s.buf (s.pos + 4))
                (i32At s.little s.buf (s.pos + 4 + 4))).1.toNat
              { buf := s.buf, pos := s.pos + 4 + 4 + 4, little := s.little,
                bases := s.pos :: s.bases }
            rw [hG] at hp
            simp only [outState] at hp
            obtain ⟨hb, hbuf, hlit⟩ := hp
            rw [M_bind_eq] at h
            simp only [popBase, hb, M_pure_eq] at h
            cases h
            refine ⟨by simp [hb], by simp [hbuf], by simp [hlit], rfl,
              ?_, ?_, ?_, ?_, ?_⟩ <;>
              first
                | assumption
                | simp [textureDims,
                    show s.pos + 4 + 4 = s.pos + 8 from by omega]
        · simp at h
      · simp at h
    · -- bad signature: popBase then raise
      rw [M_bind_eq] at h
      simp only [popBase, pythonRaise] at h
      simp at h
  · simp at h

theorem textureRead_err_spec {s : RState} {e : PErr} {se : RState}
    (h : Texture.read s = .error (e, se)) :
    se.buf = s.buf ∧ se.little = s.little ∧
    ((e = .eofErr ∧ s.buf.length < s.pos + 4) ∨
     (s.pos + 4 ≤ s.buf.length ∧
      (i32At s.little s.buf s.pos = (TXP_TEXTURE_SIG_V4 : Int) ∨
       i32At s.little s.buf s.pos = (TXP_TEXTURE_SIG_V5 : Int)) ∧
      (e = .eofErr ∨ e = .subSigErr)) ∨
     (e = .texSigErr ∧ s.pos + 4 ≤ s.buf.length ∧
      i32At s.little s.buf s.pos ≠ (TXP_TEXTURE_SIG_V4 : Int) ∧
      i32At s.little s.buf s.pos ≠ (TXP_TEXTURE_SIG_V5 : Int))) := by
  unfold Texture.read at h
  simp only [bind_tellM, bind_pushBase, bind_readI32, M_ite_app,
    M_pure_eq] at h
  split at h
  · split at h
    · split at h
      · split at h
        · rw [M_bind_eq] at h
          split at h
          · rename_i eG hG
            cases h
            rename_i hlen h3 hsig hlen2
            have hk := errKinds_readGrid _ _
              { buf := s.buf, pos := s.pos + 4 + 4 + 4, little := s.little,
                bases := s.pos :: s.bases } e se hG
            have hp := presB_readGrid
              (textureDims (i32At s.little s.buf (s.pos + 4))
                (i32At s.little s.buf (s.pos + 4 + 4))).2.toNat
              (textureDims (i32At s.little s.buf (s.pos + 4))
                (i32At s.little s.buf (s.pos + 4 + 4))).1.toNat
              { buf := s.buf, pos := s.pos + 4 + 4 + 4, little := s.little,
                bases := s.pos :: s.bases }
            rw [hG] at hp
            simp only [outState] at hp
            refine ⟨by simp [hp.2.1], by simp [hp.2.2], Or.inr (Or.inl ?_)⟩
            exact ⟨by assumption, by assumption, hk⟩
          · rename_i grid s5 hG
            have hp := presB_readGrid
              (textureDims (i32At s.little s.buf (s.pos + 4))
                (i32At s.little s.buf (s.pos + 4 + 4))).2.toNat
              (textureDims (i32At s.little s.buf (s.pos + 4))
                (i32At s.little s.buf (s.pos + 4 + 4))).1.toNat
              { buf := s.buf, pos := s.pos + 4 + 4 + 4, little := s.little,
                bases := s.pos :: s.bases }
            rw [hG] at hp
            simp only [outState] at hp
            rw [M_bind_eq] at h
            simp only [popBase, hp.1, M_pure_eq] at h
            simp at h
        · cases h
          rename_i hlen hsig hlen2 hlen3
          exact ⟨rfl, rfl, Or.inr (Or.inl ⟨hlen, hsig, Or.inl rfl⟩)⟩
      · cases h
        rename_i hlen hsig hlen2
        exact ⟨rfl, rfl, Or.inr (Or.inl ⟨hlen, hsig, Or.inl rfl⟩)⟩
    · rw [M_bind_eq] at h
      simp only [popBase, pythonRaise] at h
      cases h
      rename_i hlen hsig
      refine ⟨rfl, rfl, Or.inr (Or.inr ⟨rfl, hlen, ?_, ?_⟩)⟩ <;>
        (intro hc
         exact hsig (by simp [hc]))
  · cases h
    rename_i hlen
    exact ⟨rfl, rfl, Or.inl ⟨rfl, by omega⟩⟩

/-- C6 (amended): every successfully parsed Texture has effective
array_size and mip_count at least 1; and when the declared array size is
1 and the declared mip count differs from subcount, the effective
mip_count is max 1 subcount (the floor to one applies after the
correction, so a subcount below 1 yields 1, not subcount). -/
theorem texture_effective_dims :
    ∀ (s : RState) (t : Texture) (s' : RState),
      Texture.read s = .ok (t, s') →
      (1 ≤ t.array_size ∧ 1 ≤ t.mip_count) ∧
      (((i32At s.little s.buf (s.pos + 8)).ediv 256).emod 256 = 1 →
        (i32At s.little s.buf (s.pos + 8)).emod 256 ≠
          i32At s.little s.buf (s.pos + 4) →
        t.mip_count = max 1 (i32At s.little s.buf (s.pos + 4))) := by
  intro s t s' h
  obtain ⟨_, _, _, _, _, hmip, harr1, hmip1, _⟩ := textureRead_ok_spec h
  refine ⟨⟨harr1, hmip1⟩, ?_⟩
  intro ha hm
  rw [hmip]
  simp [textureDims, ha, hm]

/-- C6 witness: the dimension theorem applied to the concrete Texture
with declared array size 1, declared mip count 2 and subcount 0. -/
theorem texture_effective_dims_witness :
    ({ subtextures := [[none]], name := none, array_size := 1,
       mip_count := 1 } : Texture).mip_count =
      max 1 (i32At true texZeroSubBuf 4) := by
  exact (texture_effective_dims (mkReader texZeroSubBuf)
    { subtextures := [[none]], name := none, array_size := 1, mip_count := 1 }
    { buf := texZeroSubBuf, pos := 16, little := true, bases := [0] }
    (by decide)).2 (by decide) (by decide)

theorem readTexturesLoop_err :
    ∀ (offs : List Nat) (s : RState) (e : PErr) (se : RState),
      readTexturesLoop offs s = .error (e, se) →
      e = .eofErr ∨ e = .texSigErr ∨ e = .subSigErr := by
  intro offs
  induction offs with
  | nil =>
    intro s e se h
    simp [readTexturesLoop, M_pure_eq] at h
  | cons off rest ih =>
    intro s e se h
    unfold readTexturesLoop at h
    split at h
    · exact ih s e se h
    · simp only [bind_tellM, bind_seekBaseRel] at h
      rw [M_bind_eq] at h
      cases hT : Texture.read { s with pos := curBase s + off } with
      | error eT =>
        simp only [hT] at h
        cases h
        obtain ⟨q1, q2, hk⟩ := textureRead_err_spec hT
        rcases hk with ⟨he, _⟩ | ⟨_, _, he | he⟩ | ⟨he, _⟩ <;> simp [he]
      | ok p =>
        obtain ⟨t1, s1⟩ := p
        simp only [hT] at h
        simp only [bind_seekTo] at h
        rw [M_bind_eq] at h
        cases hL : readTexturesLoop rest { s1 with pos := s.pos } with
        | error eL =>
          simp only [hL] at h
          cases h
          exact ih _ e se hL
        | ok p2 =>
          obtain ⟨ts2, s2⟩ := p2
          simp only [hL] at h
          simp [M_pure_eq] at h

theorem readTexturesLoop_ok :
    ∀ (offs : List Nat) (s : RState) (ts : List Texture) (s' : RState),
      readTexturesLoop offs s = .ok (ts, s') →
      s'.bases = s.bases ∧ s'.buf = s.buf ∧ s'.little = s.little ∧
      s'.pos = s.pos ∧
      ts.length = (offs.filter (fun o => o ≠ 0)).length ∧
      ∀ t ∈ ts, t.name = none := by
  intro offs
  induction offs with
  | nil =>
    intro s ts s' h
    simp only [readTexturesLoop, M_pure_eq] at h
    cases h
    simp
  | cons off rest ih =>
    intro s ts s' h
    unfold readTexturesLoop at h
    split at h
    · rename_i hoff
      obtain ⟨p1, p2, p3, p4, p5, p6⟩ := ih s ts s' h
      refine ⟨p1, p2, p3, p4, ?_, p6⟩
      simp [hoff, p5]
    · rename_i hoff
      simp only [bind_tellM, bind_seekBaseRel] at h
      rw [M_bind_eq] at h
      cases hT : Texture.read { s with pos := curBase s + off } with
      | error eT =>
        simp only [hT] at h
        cases h
      | ok p =>
        obtain ⟨t1, s1⟩ := p
        simp only [hT] at h
        simp only [bind_seekTo] at h
        rw [M_bind_eq] at h
        cases hL : readTexturesLoop rest { s1 with pos := s.pos } with
        | error eL =>
          simp only [hL] at h
          cases h
        | ok p2 =>
          obtain ⟨ts2, s2⟩ := p2
          simp only [hL] at h
          simp only [M_pure_eq] at h
          cases h
          obtain ⟨hT1, hT2, hT3, hT4, _, _, _, _, _⟩ := textureRead_ok_spec hT
          obtain ⟨q1, q2, q3, q4, q5, q6⟩ := ih _ _ _ hL
          refine ⟨by simp [q1, hT1], by simp [q2, hT2], by simp [q3, hT3],
            by simp [q4], ?_, ?_⟩
          · simp [hoff, q5]
          · intro t ht
            rcases List.mem_cons.mp ht with h1 | h2
            · rw [h1]
              exact hT4
            · exact q6 t h2

theorem readOffsetTable_ok :
    ∀ (k : Nat) (s : RState) (os : List Nat) (s' : RState),
      readOffsetTable k s = .ok (os, s') →
      os.length = k ∧ s' = { s with pos := s.pos + 4 * k } ∧
      ∀ (i : Nat) (hi : i < os.length),
        os.get ⟨i, hi⟩ = u32At s.little s.buf (s.pos + 4 * i) := by
  intro k
  induction k with
  | zero =>
    intro s os s' h
    simp only [readOffsetTable, M_pure_eq] at h
    cases h
    refine ⟨rfl, rfl, ?_⟩
    intro i hi
    simp at hi
  | succ k ih =>
    intro s os s' h
    unfold readOffsetTable at h
    simp only [readOffset, bind_readU32] at h
    split at h
    · rw [M_bind_eq] at h
      cases hL : readOffsetTable k { s with pos := s.pos + 4 } with
      | error eL =>
        simp only [hL] at h
        cases h
      | ok p =>
        obtain ⟨rest, s2⟩ := p
        simp only [hL] at h
        simp only [M_pure_eq] at h
        cases h
        obtain ⟨q1, q2, q3⟩ := ih _ _ _ hL
        refine ⟨by simp [q1], ?_, ?_⟩
        · rw [q2]
          simp
          omega
        · intro i hi
          cases i with
          | zero => simp
          | succ i =>
            have hi2 : i < rest.length := by
              simp at hi
              omega
            have hq := q3 i hi2
            simp only [List.get_cons_succ]
            rw [hq]
            have harith : s.pos + 4 + 4 * i = s.pos + 4 * (i + 1) := by omega
            simp [harith]
    · cases h

theorem readNameOffsetsLE_ok :
    ∀ (k : Nat) (s : RState) (os : List Nat) (s' : RState),
      readNameOffsetsLE k s = .ok (os, s') →
      os.length = k ∧ s' = { s with pos := s.pos + 4 * k } ∧
      ∀ (i : Nat) (hi : i < os.length),
        os.get ⟨i, hi⟩ = u32At true s.buf (s.pos + 4 * i) := by
  intro k
  induction k with
  | zero =>
    intro s os s' h
    simp only [readNameOffsetsLE, M_pure_eq] at h
    cases h
    refine ⟨rfl, rfl, ?_⟩
    intro i hi
    simp at hi
  | succ k ih =>
    intro s os s' h
    unfold readNameOffsetsLE at h
    simp only [bind_readU32LE] at h
    split at h
    · rw [M_bind_eq] at h
      cases hL : readNameOffsetsLE k { s with pos := s.pos + 4 } with
      | error eL =>
        simp only [hL] at h
        cases h
      | ok p =>
        obtain ⟨rest, s2⟩ := p
        simp only [hL] at h
        simp only [M_pure_eq] at h
        cases h
        obtain ⟨q1, q2, q3⟩ := ih _ _ _ hL
        refine ⟨by simp [q1], ?_, ?_⟩
        · rw [q2]
          simp
          omega
        · intro i hi
          cases i with
          | zero => simp
          | succ i =>
            have hi2 : i < rest.length := by
              simp at hi
              omega
            have hq := q3 i hi2
            simp only [List.get_cons_succ]
            rw [hq]
            have harith : s.pos + 4 + 4 * i = s.pos + 4 * (i + 1) := by omega
            simp [harith]
    · cases h

theorem readSprites_ok :
    ∀ (k : Nat) (s : RState) (sps : List Sprite) (s' : RState),
      readSprites k s = .ok (sps, s') →
      sps.length = k ∧ s'.bases = s.bases ∧ s'.buf = s.buf ∧
      s'.little = s.little := by
  intro k
  induction k with
  | zero =>
    intro s sps s' h
    simp only [readSprites, M_pure_eq] at h
    cases h
    simp
  | succ k ih =>
    intro s sps s' h
    unfold readSprites at h
    rw [M_bind_eq] at h
    cases hS : Sprite.read s with
    | error eS =>
      simp only [hS] at h
      cases h
    | ok p =>
      obtain ⟨sp, s1⟩ := p
      simp only [hS] at h
      rw [M_bind_eq] at h
      cases hL : readSprites k s1 with
      | error eL =>
        simp only [hL] at h
        cases h
      | ok p2 =>
        obtain ⟨rest, s2⟩ := p2
        simp only [hL] at h
        simp only [M_pure_eq] at h
        cases h
        obtain ⟨q1, q2, q3, q4⟩ := ih _ _ _ hL
        have hp := presB_spriteRead s
        rw [hS] at hp
        simp only [outState] at hp
        exact ⟨by simp [q1], by simp [q2, hp.1], by simp [q3, hp.2.1],
          by simp [q4, hp.2.2]⟩

/-- Name delivered by the deferred name pass for table index k: none
when the index is beyond the table or the offset there is zero,
otherwise the string at that absolute offset. -/
def nameAt (buf : Buf) (offs : List Nat) (k : Nat) : Option Buf :=
  match offs.get? k with
  | some no => if no = 0 then none else some (cstringAt buf no)
  | none => none

theorem nameAt_nil (buf : Buf) (k : Nat) : nameAt buf [] k = none := by
  simp [nameAt]

theorem nameAt_cons_zero (buf : Buf) (no : Nat) (rest : List Nat) :
    nameAt buf (no :: rest) 0 =
      if no = 0 then none else some (cstringAt buf no) := by
  simp [nameAt]

theorem nameAt_cons_succ (buf : Buf) (no : Nat) (rest : List Nat) (k : Nat) :
    nameAt buf (no :: rest) (k + 1) = nameAt buf rest k := by
  simp [nameAt]

theorem assignTexNames_spec (buf : Buf) :
    ∀ (offs : List Nat) (i0 : Nat) (texs : List Texture)
      (nmap : List (Nat × Buf)),
      (assignTexNames buf i0 texs nmap offs).1.length = texs.length ∧
      ∀ (j : Nat) (hj : j < texs.length)
        (hj2 : j < (assignTexNames buf i0 texs nmap offs).1.length),
        ((assignTexNames buf i0 texs nmap offs).1.get ⟨j, hj2⟩).name =
          if i0 ≤ j ∧ nameAt buf offs (j - i0) ≠ none
          then nameAt buf offs (j - i0)
          else (texs.get ⟨j, hj⟩).name := by
  intro offs
  induction offs with
  | nil =>
    intro i0 texs nmap
    constructor
    · simp [assignTexNames]
    · intro j hj hj2
      simp [assignTexNames, nameAt_nil]
  | cons no rest ih =>
    intro i0 texs nmap
    by_cases hno : no = 0
    · have hr := ih (i0 + 1) texs nmap
      constructor
      · simpa [assignTexNames, hno] using hr.1
      · intro j hj hj2
        have hj2b : j < (assignTexNames buf (i0 + 1) texs nmap rest).1.length := by
          simpa [assignTexNames, hno] using hj2
        have h2 := hr.2 j hj hj2b
        have hlist : (assignTexNames buf i0 texs nmap (no :: rest)).1 =
            (assignTexNames buf (i0 + 1) texs nmap rest).1 := by
          simp [assignTexNames, hno]
        simp only [List.get_eq_getElem] at h2 ⊢
        simp only [hlist]
        refine h2.trans ?_
        rw [hno]
        rcases Nat.lt_trichotomy j i0 with hlt | heq | hgt
        · have c1 : ¬ (i0 + 1 ≤ j) := by omega
          have c2 : ¬ (i0 ≤ j) := by omega
          simp [c1, c2]
        · subst heq
          have c1 : ¬ (j + 1 ≤ j) := by omega
          simp [c1, nameAt_cons_zero]
        · have c1 : i0 + 1 ≤ j := by omega
          have c2 : i0 ≤ j := by omega
          have c3 : j - i0 = (j - (i0 + 1)) + 1 := by omega
          simp [c1, c2, c3, nameAt_cons_succ]
    · have hlen' : ∀ texs2 : List Texture,
          (if h : i0 < texs2.length then
            texs2.set i0 { texs2.get ⟨i0, h⟩ with
              name := some (cstringAt buf no) } else texs2).length =
            texs2.length := by
        intro texs2
        split <;> simp
      have hr := ih (i0 + 1)
        (if h : i0 < texs.length then
          texs.set i0 { texs.get ⟨i0, h⟩ with
            name := some (cstringAt buf no) } else texs)
        (nmap ++ [(i0, cstringAt buf no)])
      constructor
      · have := hr.1
        rw [hlen'] at this
        simpa [assignTexNames, hno] using this
      · intro j hj hj2
        have hj' : j < (if h : i0 < texs.length then
            texs.set i0 { texs.get ⟨i0, h⟩ with
              name := some (cstringAt buf no) } else texs).length := by
          rw [hlen']
          exact hj
        have hj2b : j < (assignTexNames buf (i0 + 1)
            (if h : i0 < texs.length then
              texs.set i0 { texs.get ⟨i0, h⟩ with
                name := some (cstringAt buf no) } else texs)
            (nmap ++ [(i0, cstringAt buf no)]) rest).1.length := by
          rw [hr.1, hlen']
          exact hj
        have h2 := hr.2 j hj' hj2b
        have hlist : (assignTexNames buf i0 texs nmap (no :: rest)).1 =
            (assignTexNames buf (i0 + 1)
              (if h : i0 < texs.length then
                texs.set i0 { texs.get ⟨i0, h⟩ with
                  name := some (cstringAt buf no) } else texs)
              (nmap ++ [(i0, cstringAt buf no)]) rest).1 := by
          simp [assignTexNames, hno]
        simp only [List.get_eq_getElem] at h2 ⊢
        simp only [hlist]
        refine h2.trans ?_
        rcases Nat.lt_trichotomy j i0 with hlt | heq | hgt
        · have c1 : ¬ (i0 + 1 ≤ j) := by omega
          have c2 : ¬ (i0 ≤ j) := by omega
          simp only [c1, false_and, if_false, c2]
          split
          · rename_i hset
            simp [List.get_eq_getElem, List.getElem_set_ne (by omega : i0 ≠ j)]
          · rfl
        · subst heq
          have c1 : ¬ (j + 1 ≤ j) := by omega
          have hset : j < texs.length := hj
          simp only [c1, false_and, if_false]
          have hz : j - j = 0 := by omega
          rw [hz, nameAt_cons_zero]
          simp only [hno, if_false]
          simp only [if_pos (by simp : j ≤ j ∧
            (some (cstringAt buf no) : Option Buf) ≠ none)]
          simp [hset, List.get_eq_getElem, List.getElem_set_self]
        · have c1 : i0 + 1 ≤ j := by omega
          have c2 : i0 ≤ j := by omega
          have c3 : j - i0 = (j - (i0 + 1)) + 1 := by omega
          rw [c3, nameAt_cons_succ]
          by_cases hname : nameAt buf rest (j - (i0 + 1)) = none
          · simp only [hname]
            simp only [if_neg (by simp : ¬ (i0 + 1 ≤ j ∧
                (none : Option Buf) ≠ none)),
              if_neg (by simp : ¬ (i0 ≤ j ∧ (none : Option Buf) ≠ none))]
            split
            · rename_i hset
              simp [List.get_eq_getElem, List.getElem_set_ne (by omega : i0 ≠ j)]
            · rfl
          · simp [c1, c2, hname]

/-- TextureSet.read in terms of the signature phase and the body: a
readable first word is compared under the current endianness; on
mismatch the cursor is switched to big-endian and the same word is
re-read once; only a second mismatch raises the TextureSet signature
error. -/
theorem textureSetRead_sig_eq (toff : Nat) (s : RState) :
    TextureSet.read toff s =
      if s.pos + 4 ≤ s.buf.length then
        if i32At s.little s.buf s.pos = (TXP_TEXSET_SIG : Int) then
          TextureSet.readBody toff { s with pos := s.pos + 4 }
        else if i32At false s.buf s.pos = (TXP_TEXSET_SIG : Int) then
          TextureSet.readBody toff
            { s with pos := s.pos + 4, little := false }
        else .error (.setSigErr,
          { s with pos := s.pos + 4, little := false })
      else .error (.eofErr,
        { s with pos := s.pos + ((s.buf.drop s.pos).take 4).length }) := by
  unfold TextureSet.read
  by_cases hlen : s.pos + 4 ≤ s.buf.length
  · simp only [bind_readI32, hlen, if_true]
    rw [M_bind_eq]
    simp only [M_ite_app]
    by_cases hsig : i32At s.little s.buf s.pos = (TXP_TEXSET_SIG : Int)
    · simp [hsig]
    · simp only [hsig, if_false]
      simp only [bind_setLittle, bind_tellM, bind_seekTo, bind_readI32]
      have harith : s.pos + 4 - 4 = s.pos := by omega
      simp only [harith]
      simp only [hlen, if_true]
      by_cases hsig2 : i32At false s.buf s.pos = (TXP_TEXSET_SIG : Int)
      · simp [hsig2]
      · simp [hsig2, pythonRaise]
  · rw [bind_readI32]
    simp [hlen]

theorem textureSetReadBody_err_kinds :
    ∀ (toff : Nat) (s : RState) (e : PErr) (se : RState),
      TextureSet.readBody toff s = .error (e, se) →
      e = .eofErr ∨ e = .texSigErr ∨ e = .subSigErr := by
  intro toff s e se h
  unfold TextureSet.readBody at h
  simp only [bind_readI32] at h
  split at h
  · split at h
    · rw [M_bind_eq] at h
      cases hOT : readOffsetTable
          (i32At s.little s.buf s.pos).toNat
          { s with pos := s.pos + 4 + 4 } with
      | error eO =>
        simp only [hOT] at h
        cases h
        exact Or.inl (errKinds_readOffsetTable rfl _ _ _ _ hOT).symm
      | ok p =>
        obtain ⟨offs, s3⟩ := p
        simp only [hOT] at h
        rw [M_bind_eq] at h
        cases hTL : readTexturesLoop offs s3 with
        | error eT =>
          simp only [hTL] at h
          cases h
          exact readTexturesLoop_err _ _ _ _ hTL
        | ok p2 =>
          obtain ⟨texs, s4⟩ := p2
          simp only [hTL] at h
          rw [M_ite_app] at h
          split at h
          · simp only [bind_tellM, bind_seekTo] at h
            rw [M_bind_eq] at h
            cases hNO : readNameOffsetsLE
                (i32At s.little s.buf s.pos).toNat
                { s4 with pos := toff } with
            | error eN =>
              simp only [hNO] at h
              cases h
              exact Or.inl (errKinds_readNameOffsetsLE rfl _ _ _ _ hNO).symm
            | ok p3 =>
              obtain ⟨nameOffs, s5⟩ := p3
              simp only [hNO] at h
              simp only [bind_getBuf, bind_seekTo, M_pure_eq] at h
              simp at h
          · simp only [M_pure_eq] at h
            simp at h
    · cases h
      exact Or.inl rfl
  · cases h
    exact Or.inl rfl

theorem textureSetReadBody_ok_spec {toff : Nat} {s : RState}
    {ts : TextureSet} {s' : RState}
    (h : TextureSet.readBody toff s = .ok (ts, s')) :
    s'.bases = s.bases ∧ s'.buf = s.buf ∧ s'.little = s.little ∧
    ∃ offs : List Nat,
      offs.length = (i32At s.little s.buf s.pos).toNat ∧
      (∀ (i : Nat) (hi : i < offs.length),
        offs.get ⟨i, hi⟩ = u32At s.little s.buf (s.pos + 8 + 4 * i)) ∧
      ts.textures.length = (offs.filter (fun o => o ≠ 0)).length ∧
      (toff = 0 → ∀ (j : Nat) (hj : j < ts.textures.length),
        (ts.textures.get ⟨j, hj⟩).name = none) ∧
      (toff ≠ 0 → ∃ nameOffs : List Nat,
        nameOffs.length = offs.length ∧
        (∀ (i : Nat) (hi : i < nameOffs.length),
          nameOffs.get ⟨i, hi⟩ = u32At true s.buf (toff + 4 * i)) ∧
        ∀ (j : Nat) (hj : j < ts.textures.length),
          (ts.textures.get ⟨j, hj⟩).name = nameAt s.buf nameOffs j) := by
  unfold TextureSet.readBody at h
  simp only [bind_readI32] at h
  split at h
  · split at h
    · rw [M_bind_eq] at h
      cases hOT : readOffsetTable
          (i32At s.little s.buf s.pos).toNat
          { s with pos := s.pos + 4 + 4 } with
      | error eO =>
        simp only [hOT] at h
        cases h
      | ok p =>
        obtain ⟨offs, s3⟩ := p
        simp only [hOT] at h
        rw [M_bind_eq] at h
        cases hTL : readTexturesLoop offs s3 with
        | error eT =>
          simp only [hTL] at h
          cases h
        | ok p2 =>
          obtain ⟨texs, s4⟩ := p2
          simp only [hTL] at h
          obtain ⟨hO1, hO2, hO3⟩ := readOffsetTable_ok _ _ _ _ hOT
          obtain ⟨hT1, hT2, hT3, hT4, hT5, hT6⟩ := readTexturesLoop_ok _ _ _ _ hTL
          have hoffs : ∀ (i : Nat) (hi : i < offs.length),
              offs.get ⟨i, hi⟩ = u32At s.little s.buf (s.pos + 8 + 4 * i) := by
            intro i hi
            rw [hO3 i hi]
          rw [M_ite_app] at h
          split at h
          · rename_i htoff
            simp only [bind_tellM, bind_seekTo] at h
            rw [M_bind_eq] at h
            cases hNO : readNameOffsetsLE
                (i32At s.little s.buf s.pos).toNat
                { s4 with pos := toff } with
            | error eN =>
              simp only [hNO] at h
              cases h
            | ok p3 =>
              obtain ⟨nameOffs, s5⟩ := p3
              simp only [hNO] at h
              simp only [bind_getBuf, bind_seekTo, M_pure_eq] at h
              cases h
              obtain ⟨hN1, hN2, hN3⟩ := readNameOffsetsLE_ok _ _ _ _ hNO
              have hp5 : s5.bases = s4.bases ∧ s5.buf = s4.buf ∧
                  s5.little = s4.little := by
                rw [hN2]
                exact ⟨rfl, rfl, rfl⟩
              have hlen := (assignTexNames_spec s5.buf nameOffs 0 texs []).1
              refine ⟨?_, ?_, ?_, ⟨offs, ?_, hoffs, ?_, ?_, ?_⟩⟩
              · simp [hp5.1, hT1, hO2]
              · simp [hp5.2.1, hT2, hO2]
              · simp [hp5.2.2, hT3, hO2]
              · rw [hO1]
              · simp only []
                rw [hlen, hT5]
              · intro h0
                exact absurd h0 htoff
              · intro _
                refine ⟨nameOffs, ?_, ?_, ?_⟩
                · rw [hN1, hO1]
                · intro i hi
                  rw [hN3 i hi]
                  have hb4 : s4.buf = s.buf := by
                    rw [hT2, hO2]
                  simp [hb4]
                · intro j hj
                  have hj2 : j < texs.length := by
                    simpa [hlen] using hj
                  have hname := (assignTexNames_spec s5.buf nameOffs 0
                    texs []).2 j hj2 hj
                  simp only [List.get_eq_getElem] at hname ⊢
                  rw [hname]
                  have hb5 : s5.buf = s.buf := by
                    rw [hp5.2.1, hT2, hO2]
                  have htn : texs[j].name = none := by
                    exact hT6 _ (List.getElem_mem hj2)
                  rw [hb5]
                  simp only [Nat.sub_zero, Nat.zero_le, true_and]
                  cases hcase : nameAt s.buf nameOffs j with
                  | none => simp [hcase, htn]
                  | some nm => simp [hcase]
          · rename_i htoff
            simp only [M_pure_eq] at h
            cases h
            refine ⟨?_, ?_, ?_, ⟨offs, ?_, hoffs, hT5, ?_, ?_⟩⟩
            · rw [hT1, hO2]
            · rw [hT2, hO2]
            · rw [hT3, hO2]
            · rw [hO1]
            · intro _ j hj
              exact hT6 _ (List.get_mem texs j hj)
            · intro hx
              exact absurd (by simpa using htoff) hx
    · cases h
  · cases h

theorem textureRead_badSig_eq {s : RState}
    (hlen : s.pos + 4 ≤ s.buf.length)
    (h4 : i32At s.little s.buf s.pos ≠ (TXP_TEXTURE_SIG_V4 : Int))
    (h5 : i32At s.little s.buf s.pos ≠ (TXP_TEXTURE_SIG_V5 : Int)) :
    Texture.read s = .error (.texSigErr, { s with pos := s.pos + 4 }) := by
  unfold Texture.read
  simp only [bind_tellM, bind_pushBase, bind_readI32]
  simp only [hlen, if_true]
  rw [M_ite_app]
  simp only [h4, h5, or_self, if_false]
  rw [M_bind_eq]
  simp [popBase, pythonRaise]

theorem subTexRead_badSig_eq {s : RState}
    (hlen : s.pos + 4 ≤ s.buf.length)
    (hsig : i32At s.little s.buf s.pos ≠ (TXP_SUBTEXTURE_SIG : Int)) :
    SubTexture.read s = .error (.subSigErr, { s with pos := s.pos + 4 }) := by
  unfold SubTexture.read
  simp only [bind_readI32]
  simp only [hlen, if_true]
  rw [M_ite_app]
  simp [hsig, pythonRaise]

/-- C2 (amended): only TextureSet.read performs the endianness retry —
it raises its signature error exactly when the readable first word
matches the constant under neither the current endianness nor big-endian
(the retry sets big-endian rather than flipping, so a big-endian cursor
re-reads identically); Texture.read and SubTexture.read raise their
signature errors exactly on a readable first-word mismatch under the
current endianness alone, with no retry; and SpriteSet.read does not
check its signature word at all (a garbage signature parses). -/
theorem signature_retry_behavior :
    (∀ (toff : Nat) (s : RState),
      TextureSet.read toff s =
          .error (.setSigErr, { s with pos := s.pos + 4, little := false }) ↔
        (s.pos + 4 ≤ s.buf.length ∧
         i32At s.little s.buf s.pos ≠ (TXP_TEXSET_SIG : Int) ∧
         i32At false s.buf s.pos ≠ (TXP_TEXSET_SIG : Int))) ∧
    (∀ s : RState,
      Texture.read s = .error (.texSigErr, { s with pos := s.pos + 4 }) ↔
        (s.pos + 4 ≤ s.buf.length ∧
         i32At s.little s.buf s.pos ≠ (TXP_TEXTURE_SIG_V4 : Int) ∧
         i32At s.little s.buf s.pos ≠ (TXP_TEXTURE_SIG_V5 : Int))) ∧
    (∀ s : RState,
      SubTexture.read s = .error (.subSigErr, { s with pos := s.pos + 4 }) ↔
        (s.pos + 4 ≤ s.buf.length ∧
         i32At s.little s.buf s.pos ≠ (TXP_SUBTEXTURE_SIG : Int))) ∧
    (SpriteSet.read (mkReader spriteJunkSigBuf) =
        .ok ({ sprites := [], texture_set := none },
          { buf := spriteJunkSigBuf, pos := 32, little := true,
            bases := [0] }) ∧
      i32At true spriteJunkSigBuf 0 ≠ 0) := by
  refine ⟨?_, ?_, ?_, by decide⟩
  · intro toff s
    rw [textureSetRead_sig_eq]
    by_cases h1 : s.pos + 4 ≤ s.buf.length
    · simp only [h1, if_true]
      by_cases h2 : i32At s.little s.buf s.pos = (TXP_TEXSET_SIG : Int)
      · simp only [h2, if_true]
        constructor
        · intro hb
          exfalso
          rcases textureSetReadBody_err_kinds _ _ _ _ hb with h | h | h <;>
            simp at h
        · rintro ⟨_, hc, _⟩
          exact absurd rfl hc
      · simp only [h2, if_false]
        by_cases h3 : i32At false s.buf s.pos = (TXP_TEXSET_SIG : Int)
        · simp only [h3, if_true]
          constructor
          · intro hb
            exfalso
            rcases textureSetReadBody_err_kinds _ _ _ _ hb with h | h | h <;>
              simp at h
          · rintro ⟨_, _, hc⟩
            exact absurd rfl hc
        · simp only [h3, if_false]
          simp [h1, h2, h3]
    · simp only [h1, if_false]
      simp [h1]
  · intro s
    constructor
    · intro h
      obtain ⟨_, _, hk⟩ := textureRead_err_spec h
      rcases hk with ⟨he, _⟩ | ⟨_, _, he | he⟩ | ⟨_, hl, h4, h5⟩ <;>
        first
          | (cases he)
          | exact ⟨hl, h4, h5⟩
    · rintro ⟨h1, h2, h3⟩
      exact textureRead_badSig_eq h1 h2 h3
  · intro s
    constructor
    · intro h
      by_cases h1 : s.pos + 4 ≤ s.buf.length
      · by_cases h2 : i32At s.little s.buf s.pos = (TXP_SUBTEXTURE_SIG : Int)
        · exfalso
          unfold SubTexture.read at h
          simp only [bind_readI32] at h
          simp only [h1, if_true] at h
          rw [M_ite_app] at h
          simp only [h2, if_true] at h
          simp only [bind_readI32] at h
          repeat' first
            | (split at h)
            | (rw [bind_readBytes] at h)
            | (simp only [M_pure_eq] at h)
          all_goals simp_all
        · exact ⟨h1, h2⟩
      · exfalso
        unfold SubTexture.read at h
        simp only [bind_readI32] at h
        simp only [h1, if_false] at h
        simp at h
    · rintro ⟨h1, h2⟩
      exact subTexRead_badSig_eq h1 h2

/-- C2 witness: the retry characterization applied to concrete buffers
whose signature words mismatch. -/
theorem signature_retry_behavior_witness :
    TextureSet.read 0 (mkReader [9, 9, 9, 9]) =
      .error (.setSigErr, { buf := [9, 9, 9, 9], pos := 4, little := false,
                            bases := [0] }) ∧
    Texture.read (mkReader [9, 9, 9, 9]) =
      .error (.texSigErr, { buf := [9, 9, 9, 9], pos := 4, little := true,
                            bases := [0] }) ∧
    SubTexture.read (mkReader [9, 9, 9, 9]) =
      .error (.subSigErr, { buf := [9, 9, 9, 9], pos := 4, little := true,
                            bases := [0] }) := by
  refine ⟨?_, ?_, ?_⟩
  · exact (signature_retry_behavior.1 0 (mkReader [9, 9, 9, 9])).mpr
      ⟨by decide, by decide, by decide⟩
  · exact (signature_retry_behavior.2.1 (mkReader [9, 9, 9, 9])).mpr
      ⟨by decide, by decide, by decide⟩
  · exact (signature_retry_behavior.2.2.1 (mkReader [9, 9, 9, 9])).mpr
      ⟨by decide, by decide⟩

/-- Concatenation of 4-byte word encodings. -/
def wordsBuf (lit : Bool) : List Nat → Buf
  | [] => []
  | n :: rest => encodeWord lit n ++ wordsBuf lit rest

theorem encodeWord_length (lit : Bool) (n : Nat) :
    (encodeWord lit n).length = 4 := by
  cases lit <;> simp [encodeWord]

theorem decode_encode (lit : Bool) (n : Nat) (h : n < 2 ^ 32) :
    decodeWord lit (encodeWord lit n) = n := by
  cases lit <;>
    simp [decodeWord, encodeWord, decodeWordLE] <;>
    omega

theorem wordsBuf_length (lit : Bool) (ns : List Nat) :
    (wordsBuf lit ns).length = 4 * ns.length := by
  induction ns with
  | nil => simp [wordsBuf]
  | cons n tail ih =>
    simp [wordsBuf, ih, encodeWord_length]
    omega

theorem drop_wordsBuf_all (lit : Bool) (ns : List Nat) (rest : Buf) :
    (wordsBuf lit ns ++ rest).drop (4 * ns.length) = rest := by
  rw [← wordsBuf_length lit ns]
  exact List.drop_left _ _

theorem u32At_wordsBuf (lit : Bool) (ns : List Nat) (rest : Buf) (k : Nat)
    (hk : k < ns.length) (hb : ∀ n ∈ ns, n < 2 ^ 32) :
    u32At lit (wordsBuf lit ns ++ rest) (4 * k) = ns.get ⟨k, hk⟩ := by
  induction ns generalizing k with
  | nil => cases hk
  | cons n tail ih =>
    cases k with
    | zero =>
      unfold u32At
      rw [show wordsBuf lit (n :: tail) ++ rest =
        encodeWord lit n ++ (wordsBuf lit tail ++ rest) from by
          simp [wordsBuf]]
      rw [Nat.mul_zero, List.drop_zero]
      rw [show (4 : Nat) = (encodeWord lit n).length from
        (encodeWord_length lit n).symm]
      rw [List.take_left]
      simp only [List.get]
      exact decode_encode lit n (hb n (by simp))
    | succ k =>
      rw [show wordsBuf lit (n :: tail) ++ rest =
        encodeWord lit n ++ (wordsBuf lit tail ++ rest) from by
          simp [wordsBuf]]
      unfold u32At
      rw [show 4 * (k + 1) = (encodeWord lit n).length + 4 * k from by
        rw [encodeWord_length]
        omega]
      rw [List.drop_append]
      have := ih k (by simpa using hk) (fun m hm => hb m (by simp [hm]))
      unfold u32At at this
      rw [this]
      simp

/-- Words of the encTexSet image, in layout order. -/
def texSetWords (w h fmt id L : Nat) : List Nat :=
  [TXP_TEXSET_SIG, 1, 0, 16, TXP_TEXTURE_SIG_V4, 1, 0x101, 16,
   TXP_SUBTEXTURE_SIG, w, h, fmt, id, L]

theorem encTexSet_eq_words (lit : Bool) (w h fmt id : Nat) (payload : Buf) :
    encTexSet lit w h fmt id payload =
      wordsBuf lit (texSetWords w h fmt id payload.length) ++ payload := by
  simp [encTexSet, wordsBuf, texSetWords, List.append_assoc]

theorem encTexSet_length (lit : Bool) (w h fmt id : Nat) (payload : Buf) :
    (encTexSet lit w h fmt id payload).length = 56 + payload.length := by
  rw [encTexSet_eq_words]
  simp [wordsBuf_length, texSetWords]

theorem texSetWords_bound {w h fmt id : Nat} (L : Nat)
    (hw : w < 2 ^ 31) (hh : h < 2 ^ 31) (hf : fmt < 2 ^ 31)
    (hi : id < 2 ^ 31) (hL : L < 2 ^ 31) :
    ∀ n ∈ texSetWords w h fmt id L, n < 2 ^ 32 := by
  intro n hn
  simp [texSetWords, TXP_TEXSET_SIG, TXP_TEXTURE_SIG_V4,
    TXP_SUBTEXTURE_SIG] at hn
  rcases hn with h | h | h | h | h | h | h | h | h | h | h | h | h | h <;>
    omega

theorem toI32_small {n : Nat} (h : n < 2 ^ 31) : toI32 n = n := by
  unfold toI32
  rw [if_pos (by omega)]

set_option maxHeartbeats 1600000 in
theorem subTexRead_on_enc (lit : Bool) (w h fmt id : Nat) (payload : Buf)
    (b : List Nat) (hw : w < 2 ^ 31) (hh : h < 2 ^ 31) (hf : fmt < 2 ^ 31)
    (hi : id < 2 ^ 31) (hp : payload.length < 2 ^ 31) :
    SubTexture.read
        { buf := encTexSet lit w h fmt id payload, pos := 32,
          little := lit, bases := b } =
      .ok ({ width := w, height := h, format := fmt, id := id,
             data := payload },
        { buf := encTexSet lit w h fmt id payload,
          pos := 56 + payload.length, little := lit, bases := b }) := by
  have hbuf := encTexSet_eq_words lit w h fmt id payload
  have hlen := encTexSet_length lit w h fmt id payload
  have hb := texSetWords_bound payload.length hw hh hf hi hp
  have h8 : u32At lit (encTexSet lit w h fmt id payload) 32 = TXP_SUBTEXTURE_SIG := by
    have hx := u32At_wordsBuf lit (texSetWords w h fmt id payload.length)
      payload 8 (by simp [texSetWords]) hb
    rw [hbuf, show (32 : Nat) = 4 * 8 from by norm_num, hx]
    rfl
  have h9 : u32At lit (encTexSet lit w h fmt id payload) 36 = w := by
    have hx := u32At_wordsBuf lit (texSetWords w h fmt id payload.length)
      payload 9 (by simp [texSetWords]) hb
    rw [hbuf, show (36 : Nat) = 4 * 9 from by norm_num, hx]
    rfl
  have h10 : u32At lit (encTexSet lit w h fmt id payload) 40 = h := by
    have hx := u32At_wordsBuf lit (texSetWords w h fmt id payload.length)
      payload 10 (by simp [texSetWords]) hb
    rw [hbuf, show (40 : Nat) = 4 * 10 from by norm_num, hx]
    rfl
  have h11 : u32At lit (encTexSet lit w h fmt id payload) 44 = fmt := by
    have hx := u32At_wordsBuf lit (texSetWords w h fmt id payload.length)
      payload 11 (by simp [texSetWords]) hb
    rw [hbuf, show (44 : Nat) = 4 * 11 from by norm_num, hx]
    rfl
  have h12 : u32At lit (encTexSet lit w h fmt id payload) 48 = id := by
    have hx := u32At_wordsBuf lit (texSetWords w h fmt id payload.length)
      payload 12 (by simp [texSetWords]) hb
    rw [hbuf, show (48 : Nat) = 4 * 12 from by norm_num, hx]
    rfl
  have h13 : u32At lit (encTexSet lit w h fmt id payload) 52 = payload.length := by
    have hx := u32At_wordsBuf lit (texSetWords w h fmt id payload.length)
      payload 13 (by simp [texSetWords]) hb
    rw [hbuf, show (52 : Nat) = 4 * 13 from by norm_num, hx]
    rfl
  have hdrop : (encTexSet lit w h fmt id payload).drop 56 = payload := by
    have hx := drop_wordsBuf_all lit
      (texSetWords w h fmt id payload.length) payload
    rw [hbuf, show (56 : Nat) =
      4 * (texSetWords w h fmt id payload.length).length from by
        simp [texSetWords]]
    exact hx
  have c36 : 36 ≤ (encTexSet lit w h fmt id payload).length := by
    rw [hlen]
    omega
  have c40 : 40 ≤ (encTexSet lit w h fmt id payload).length := by
    rw [hlen]
    omega
  have c44 : 44 ≤ (encTexSet lit w h fmt id payload).length := by
    rw [hlen]
    omega
  have c48 : 48 ≤ (encTexSet lit w h fmt id payload).length := by
    rw [hlen]
    omega
  have c52 : 52 ≤ (encTexSet lit w h fmt id payload).length := by
    rw [hlen]
    omega
  have c56 : 56 ≤ (encTexSet lit w h fmt id payload).length := by
    rw [hlen]
    omega
  have hnn : ¬ ((payload.length : Int) < 0) := by omega
  have hi8 : i32At lit (encTexSet lit w h fmt id payload) 32 =
      (TXP_SUBTEXTURE_SIG : Int) := by
    unfold i32At
    rw [h8]
    rfl
  have hi9 : i32At lit (encTexSet lit w h fmt id payload) 36 = (w : Int) := by
    unfold i32At
    rw [h9]
    exact toI32_small hw
  have hi10 : i32At lit (encTexSet lit w h fmt id payload) 40 = (h : Int) := by
    unfold i32At
    rw [h10]
    exact toI32_small hh
  have hi11 : i32At lit (encTexSet lit w h fmt id payload) 44 =
      (fmt : Int) := by
    unfold i32At
    rw [h11]
    exact toI32_small hf
  have hi12 : i32At lit (encTexSet lit w h fmt id payload) 48 = (id : Int) := by
    unfold i32At
    rw [h12]
    exact toI32_small hi
  have hi13 : i32At lit (encTexSet lit w h fmt id payload) 52 =
      (payload.length : Int) := by
    unfold i32At
    rw [h13]
    exact toI32_small hp
  have c36b : 32 + 4 ≤ (encTexSet lit w h fmt id payload).length := c36
  have c40b : 32 + 4 + 4 ≤ (encTexSet lit w h fmt id payload).length := c40
  have c44b : 32 + 4 + 4 + 4 ≤
      (encTexSet lit w h fmt id payload).length := c44
  have c48b : 32 + 4 + 4 + 4 + 4 ≤
      (encTexSet lit w h fmt id payload).length := c48
  have c52b : 32 + 4 + 4 + 4 + 4 + 4 ≤
      (encTexSet lit w h fmt id payload).length := c52
  have c56b : 32 + 4 + 4 + 4 + 4 + 4 + 4 ≤
      (encTexSet lit w h fmt id payload).length := c56
  have hi9b : i32At lit (encTexSet lit w h fmt id payload) (32 + 4) =
      (w : Int) := hi9
  have hi10b : i32At lit (encTexSet lit w h fmt id payload) (32 + 4 + 4) =
      (h : Int) := hi10
  have hi11b : i32At lit (encTexSet lit w h fmt id payload)
      (32 + 4 + 4 + 4) = (fmt : Int) := hi11
  have hi12b : i32At lit (encTexSet lit w h fmt id payload)
      (32 + 4 + 4 + 4 + 4) = (id : Int) := hi12
  have hi13b : i32At lit (encTexSet lit w h fmt id payload)
      (32 + 4 + 4 + 4 + 4 + 4) = (payload.length : Int) := hi13
  have hdropb : (encTexSet lit w h fmt id payload).drop
      (32 + 4 + 4 + 4 + 4 + 4 + 4) = payload := hdrop
  unfold SubTexture.read
  rw [bind_readI32]
  dsimp only
  rw [if_pos c36b, hi8, if_pos rfl]
  rw [bind_readI32]
  dsimp only
  rw [if_pos c40b, hi9b]
  rw [bind_readI32]
  dsimp only
  rw [if_pos c44b, hi10b]
  rw [bind_readI32]
  dsimp only
  rw [if_pos c48b, hi11b]
  rw [bind_readI32]
  dsimp only
  rw [if_pos c52b, hi12b]
  rw [bind_readI32]
  dsimp only
  rw [if_pos c56b, hi13b]
  rw [bind_readBytes]
  dsimp only
  rw [if_neg hnn, hdropb]
  rw [M_pure_eq]
  simp only [Int.toNat_natCast, List.take_length]

theorem readMipCell_on_enc (lit : Bool) (w h fmt id : Nat) (payload : Buf)
    (b : List Nat) (hw : w < 2 ^ 31) (hh : h < 2 ^ 31) (hf : fmt < 2 ^ 31)
    (hi : id < 2 ^ 31) (hp : payload.length < 2 ^ 31) :
    readMipCell
        { buf := encTexSet lit w h fmt id payload, pos := 28,
          little := lit, bases := 16 :: b } =
      .ok (some { width := w, height := h, format := fmt, id := id,
                  data := payload },
        { buf := encTexSet lit w h fmt id payload,
          pos := 32, little := lit, bases := 16 :: b }) := by
  have hbuf := encTexSet_eq_words lit w h fmt id payload
  have hlen := encTexSet_length lit w h fmt id payload
  have hb := texSetWords_bound payload.length hw hh hf hi hp
  have hu7 : u32At lit (encTexSet lit w h fmt id payload) 28 = 16 := by
    have hx := u32At_wordsBuf lit (texSetWords w h fmt id payload.length)
      payload 7 (by simp [texSetWords]) hb
    rw [hbuf, show (28 : Nat) = 4 * 7 from by norm_num, hx]
    rfl
  have c32 : 28 + 4 ≤ (encTexSet lit w h fmt id payload).length := by
    rw [hlen]; omega
  have hst : SubTexture.read
      { buf := encTexSet lit w h fmt id payload, pos := 16 + 16,
        little := lit, bases := 16 :: b } =
      .ok ({ width := w, height := h, format := fmt, id := id,
             data := payload },
        { buf := encTexSet lit w h fmt id payload,
          pos := 56 + payload.length, little := lit, bases := 16 :: b }) :=
    subTexRead_on_enc lit w h fmt id payload (16 :: b) hw hh hf hi hp
  simp only [readMipCell, readOffset]
  rw [bind_readU32]
  dsimp only
  rw [if_pos c32, hu7, if_neg (by norm_num)]
  rw [bind_tellM]
  dsimp only
  rw [bind_seekBaseRel]
  dsimp only [curBase, List.headD]
  rw [M_bind_eq, hst]
  dsimp only
  rw [bind_seekTo]
  rw [M_pure_eq]

theorem readGrid_on_enc (lit : Bool) (w h fmt id : Nat) (payload : Buf)
    (b : List Nat) (hw : w < 2 ^ 31) (hh : h < 2 ^ 31) (hf : fmt < 2 ^ 31)
    (hi : id < 2 ^ 31) (hp : payload.length < 2 ^ 31) :
    readGrid 1 1
        { buf := encTexSet lit w h fmt id payload, pos := 28,
          little := lit, bases := 16 :: b } =
      .ok ([[some { width := w, height := h, format := fmt, id := id,
                    data := payload }]],
        { buf := encTexSet lit w h fmt id payload,
          pos := 32, little := lit, bases := 16 :: b }) := by
  have hcell := readMipCell_on_enc lit w h fmt id payload b hw hh hf hi hp
  have hg : (readGrid 1 1 : M (List (List (Option SubTexture)))) =
      readMipRow 1 >>= fun row =>
        readGrid 1 0 >>= fun rest => pure (row :: rest) := rfl
  have hr : (readMipRow 1 : M (List (Option SubTexture))) =
      readMipCell >>= fun c =>
        readMipRow 0 >>= fun rest => pure (c :: rest) := rfl
  have hrow : readMipRow 1
      { buf := encTexSet lit w h fmt id payload, pos := 28,
        little := lit, bases := 16 :: b } =
      .ok ([some { width := w, height := h, format := fmt, id := id,
                   data := payload }],
        { buf := encTexSet lit w h fmt id payload,
          pos := 32, little := lit, bases := 16 :: b }) := by
    rw [hr, M_bind_eq, hcell]
    rfl
  rw [hg, M_bind_eq, hrow]
  rfl

theorem textureRead_on_enc (lit : Bool) (w h fmt id : Nat) (payload : Buf)
    (b : List Nat) (hw : w < 2 ^ 31) (hh : h < 2 ^ 31) (hf : fmt < 2 ^ 31)
    (hi : id < 2 ^ 31) (hp : payload.length < 2 ^ 31) :
    Texture.read
        { buf := encTexSet lit w h fmt id payload, pos := 16,
          little := lit, bases := b } =
      .ok ({ subtextures := [[some (SubTexture.mk w h fmt id payload)]],
             name := none, array_size := 1, mip_count := 1 },
        { buf := encTexSet lit w h fmt id payload,
          pos := 32, little := lit, bases := b }) := by
  have hbuf := encTexSet_eq_words lit w h fmt id payload
  have hlen := encTexSet_length lit w h fmt id payload
  have hb := texSetWords_bound payload.length hw hh hf hi hp
  have hu4 : u32At lit (encTexSet lit w h fmt id payload) 16 =
      TXP_TEXTURE_SIG_V4 := by
    have hx := u32At_wordsBuf lit (texSetWords w h fmt id payload.length)
      payload 4 (by simp [texSetWords]) hb
    rw [hbuf, show (16 : Nat) = 4 * 4 from by norm_num, hx]
    rfl
  have hu5 : u32At lit (encTexSet lit w h fmt id payload) 20 = 1 := by
    have hx := u32At_wordsBuf lit (texSetWords w h fmt id payload.length)
      payload 5 (by simp [texSetWords]) hb
    rw [hbuf, show (20 : Nat) = 4 * 5 from by norm_num, hx]
    rfl
  have hu6 : u32At lit (encTexSet lit w h fmt id payload) 24 = 257 := by
    have hx := u32At_wordsBuf lit (texSetWords w h fmt id payload.length)
      payload 6 (by simp [texSetWords]) hb
    rw [hbuf, show (24 : Nat) = 4 * 6 from by norm_num, hx]
    rfl
  have hiV4 : i32At lit (encTexSet lit w h fmt id payload) 16 =
      (TXP_TEXTURE_SIG_V4 : Int) := by
    unfold i32At
    rw [hu4]
    exact toI32_small (by norm_num [TXP_TEXTURE_SIG_V4])
  have hi5 : i32At lit (encTexSet lit w h fmt id payload) (16 + 4) =
      (1 : Int) := by
    unfold i32At
    rw [hu5]
    exact toI32_small (by norm_num)
  have hi6 : i32At lit (encTexSet lit w h fmt id payload) (16 + 4 + 4) =
      (257 : Int) := by
    unfold i32At
    rw [hu6]
    exact toI32_small (by norm_num)
  have c20 : 16 + 4 ≤ (encTexSet lit w h fmt id payload).length := by
    rw [hlen]; omega
  have c24 : 16 + 4 + 4 ≤ (encTexSet lit w h fmt id payload).length := by
    rw [hlen]; omega
  have c28 : 16 + 4 + 4 + 4 ≤ (encTexSet lit w h fmt id payload).length := by
    rw [hlen]; omega
  have hgrid : readGrid 1 1
      { buf := encTexSet lit w h fmt id payload, pos := 16 + 4 + 4 + 4,
        little := lit, bases := 16 :: b } =
      .ok ([[some { width := w, height := h, format := fmt, id := id,
                    data := payload }]],
        { buf := encTexSet lit w h fmt id payload,
          pos := 32, little := lit, bases := 16 :: b }) :=
    readGrid_on_enc lit w h fmt id payload b hw hh hf hi hp
  have hdims : textureDims 1 257 = (1, 1) := by decide
  unfold Texture.read
  rw [bind_tellM]
  dsimp only
  rw [bind_pushBase]
  dsimp only
  rw [bind_readI32]
  dsimp only
  rw [if_pos c20, hiV4, if_pos (Or.inl rfl)]
  rw [bind_readI32]
  dsimp only
  rw [if_pos c24, hi5]
  rw [bind_readI32]
  dsimp only
  rw [if_pos c28, hi6]
  rw [hdims]
  have hgrid2 : readGrid ((1 : Int), (1 : Int)).2.toNat
      ((1 : Int), (1 : Int)).1.toNat
      { buf := encTexSet lit w h fmt id payload, pos := 16 + 4 + 4 + 4,
        little := lit, bases := 16 :: b } =
      .ok ([[some (SubTexture.mk w h fmt id payload)]],
        { buf := encTexSet lit w h fmt id payload,
          pos := 32, little := lit, bases := 16 :: b }) := hgrid
  rw [M_bind_eq, hgrid2]
  rfl

theorem texSetReadBody_on_enc (lit : Bool) (w h fmt id : Nat)
    (payload : Buf) (hw : w < 2 ^ 31) (hh : h < 2 ^ 31) (hf : fmt < 2 ^ 31)
    (hi : id < 2 ^ 31) (hp : payload.length < 2 ^ 31) :
    TextureSet.readBody 0
        { buf := encTexSet lit w h fmt id payload, pos := 4,
          little := lit, bases := [0] } =
      .ok ({ textures := [Texture.mk [[some (SubTexture.mk w h fmt id payload)]]
               none 1 1],
             texture_names := [] },
        { buf := encTexSet lit w h fmt id payload,
          pos := 16, little := lit, bases := [0] }) := by
  have hbuf := encTexSet_eq_words lit w h fmt id payload
  have hlen := encTexSet_length lit w h fmt id payload
  have hb := texSetWords_bound payload.length hw hh hf hi hp
  have hu1 : u32At lit (encTexSet lit w h fmt id payload) 4 = 1 := by
    have hx := u32At_wordsBuf lit (texSetWords w h fmt id payload.length)
      payload 1 (by simp [texSetWords]) hb
    rw [hbuf, show (4 : Nat) = 4 * 1 from by norm_num, hx]
    rfl
  have hu2 : u32At lit (encTexSet lit w h fmt id payload) 8 = 0 := by
    have hx := u32At_wordsBuf lit (texSetWords w h fmt id payload.length)
      payload 2 (by simp [texSetWords]) hb
    rw [hbuf, show (8 : Nat) = 4 * 2 from by norm_num, hx]
    rfl
  have hu3 : u32At lit (encTexSet lit w h fmt id payload) 12 = 16 := by
    have hx := u32At_wordsBuf lit (texSetWords w h fmt id payload.length)
      payload 3 (by simp [texSetWords]) hb
    rw [hbuf, show (12 : Nat) = 4 * 3 from by norm_num, hx]
    rfl
  have hi1 : i32At lit (encTexSet lit w h fmt id payload) 4 = (1 : Int) := by
    unfold i32At
    rw [hu1]
    exact toI32_small (by norm_num)
  have hi2 : i32At lit (encTexSet lit w h fmt id payload) (4 + 4) =
      (0 : Int) := by
    unfold i32At
    rw [hu2]
    exact toI32_small (by norm_num)
  have hu3b : u32At lit (encTexSet lit w h fmt id payload) (4 + 4 + 4) =
      16 := hu3
  have c8 : 4 + 4 ≤ (encTexSet lit w h fmt id payload).length := by
    rw [hlen]; omega
  have c12 : 4 + 4 + 4 ≤ (encTexSet lit w h fmt id payload).length := by
    rw [hlen]; omega
  have c16 : 4 + 4 + 4 + 4 ≤ (encTexSet lit w h fmt id payload).length := by
    rw [hlen]; omega
  have htex : Texture.read
      { buf := encTexSet lit w h fmt id payload, pos := 0 + 16,
        little := lit, bases := [0] } =
      .ok ({ subtextures := [[some (SubTexture.mk w h fmt id payload)]],
             name := none, array_size := 1, mip_count := 1 },
        { buf := encTexSet lit w h fmt id payload,
          pos := 32, little := lit, bases := [0] }) :=
    textureRead_on_enc lit w h fmt id payload [0] hw hh hf hi hp
  have hloop : readTexturesLoop [16]
      { buf := encTexSet lit w h fmt id payload, pos := 4 + 4 + 4 + 4,
        little := lit, bases := [0] } =
      .ok ([Texture.mk [[some (SubTexture.mk w h fmt id payload)]]
              none 1 1],
        { buf := encTexSet lit w h fmt id payload,
          pos := 4 + 4 + 4 + 4, little := lit, bases := [0] }) := by
    have e2 : (readTexturesLoop [16] : M (List Texture)) =
        tellM >>= fun cur =>
          seekBaseRel 16 >>= fun _ =>
            Texture.read >>= fun t =>
              seekTo cur >>= fun _ =>
                readTexturesLoop [] >>= fun ts => pure (t :: ts) := rfl
    rw [e2, bind_tellM]
    dsimp only
    rw [bind_seekBaseRel]
    dsimp only [curBase, List.headD]
    rw [M_bind_eq, htex]
    dsimp only
    rw [bind_seekTo]
    rfl
  have htab : readOffsetTable (1 : Int).toNat
      { buf := encTexSet lit w h fmt id payload, pos := 4 + 4 + 4,
        little := lit, bases := [0] } =
      .ok ([16],
        { buf := encTexSet lit w h fmt id payload,
          pos := 4 + 4 + 4 + 4, little := lit, bases := [0] }) := by
    have e1 : (readOffsetTable (1 : Int).toNat : M (List Nat)) =
        readOffset >>= fun o =>
          readOffsetTable 0 >>= fun rest => pure (o :: rest) := rfl
    rw [e1]
    simp only [readOffset]
    rw [bind_readU32]
    dsimp only
    rw [if_pos c16, hu3b]
    rfl
  unfold TextureSet.readBody
  rw [bind_readI32]
  dsimp only
  rw [if_pos c8, hi1]
  rw [bind_readI32]
  dsimp only
  rw [if_pos c12]
  rw [M_bind_eq, htab]
  dsimp only
  rw [M_bind_eq, hloop]
  dsimp only
  rw [if_neg (by norm_num)]
  rw [M_pure_eq]

/-- C4 (amended): endianness invariance holds for TextureSets without a
texture-name table: the same logical set encoded little-endian and
big-endian decodes to the identical object graph (the big-endian file is
accepted through the signature retry that switches the cursor to
big-endian). The original claim fails only through the texture-name
offset table, which is read little-endian unconditionally. -/
theorem texture_set_endianness_invariance (w h fmt id : Nat)
    (payload : Buf) (hw : w < 2 ^ 31) (hh : h < 2 ^ 31) (hf : fmt < 2 ^ 31)
    (hi : id < 2 ^ 31) (hp : payload.length < 2 ^ 31) :
    TextureSet.read 0 (mkReader (encTexSet true w h fmt id payload)) =
      .ok ({ textures := [Texture.mk
               [[some (SubTexture.mk w h fmt id payload)]] none 1 1],
             texture_names := [] },
        { buf := encTexSet true w h fmt id payload, pos := 16,
          little := true, bases := [0] }) ∧
    TextureSet.read 0 (mkReader (encTexSet false w h fmt id payload)) =
      .ok ({ textures := [Texture.mk
               [[some (SubTexture.mk w h fmt id payload)]] none 1 1],
             texture_names := [] },
        { buf := encTexSet false w h fmt id payload, pos := 16,
          little := false, bases := [0] }) := by
  have hbufT := encTexSet_eq_words true w h fmt id payload
  have hbufF := encTexSet_eq_words false w h fmt id payload
  have hlenT := encTexSet_length true w h fmt id payload
  have hlenF := encTexSet_length false w h fmt id payload
  have hbT := texSetWords_bound payload.length hw hh hf hi hp
  have hu0T : u32At true (encTexSet true w h fmt id payload) 0 =
      TXP_TEXSET_SIG := by
    have hx := u32At_wordsBuf true (texSetWords w h fmt id payload.length)
      payload 0 (by simp [texSetWords]) hbT
    rw [hbufT, show (0 : Nat) = 4 * 0 from by norm_num, hx]
    rfl
  have hu0F : u32At false (encTexSet false w h fmt id payload) 0 =
      TXP_TEXSET_SIG := by
    have hx := u32At_wordsBuf false (texSetWords w h fmt id payload.length)
      payload 0 (by simp [texSetWords]) hbT
    rw [hbufF, show (0 : Nat) = 4 * 0 from by norm_num, hx]
    rfl
  have hsigT : i32At true (encTexSet true w h fmt id payload) 0 =
      (TXP_TEXSET_SIG : Int) := by
    unfold i32At
    rw [hu0T]
    exact toI32_small (by norm_num [TXP_TEXSET_SIG])
  have hsigF2 : i32At false (encTexSet false w h fmt id payload) 0 =
      (TXP_TEXSET_SIG : Int) := by
    unfold i32At
    rw [hu0F]
    exact toI32_small (by norm_num [TXP_TEXSET_SIG])
  have hflip : u32At true (encTexSet false w h fmt id payload) 0 =
      0x54585003 := by
    rw [hbufF]
    have h1 : wordsBuf false (texSetWords w h fmt id payload.length) =
        encodeWord false TXP_TEXSET_SIG ++ wordsBuf false
          [1, 0, 16, TXP_TEXTURE_SIG_V4, 1, 0x101, 16, TXP_SUBTEXTURE_SIG,
           w, h, fmt, id, payload.length] := rfl
    rw [h1, show encodeWord false TXP_TEXSET_SIG = [3, 80, 88, 84]
      from by decide]
    unfold u32At decodeWord
    simp only [List.drop_zero, List.append_eq, List.take_succ_cons,
      List.take_zero, decodeWordLE]
    norm_num
  have hneF : i32At true (encTexSet false w h fmt id payload) 0 ≠
      (TXP_TEXSET_SIG : Int) := by
    unfold i32At
    rw [hflip, toI32_small (by norm_num)]
    decide
  have c4T : 0 + 4 ≤ (encTexSet true w h fmt id payload).length := by
    rw [hlenT]; omega
  have c4F : 0 + 4 ≤ (encTexSet false w h fmt id payload).length := by
    rw [hlenF]; omega
  have hbodyT : TextureSet.readBody 0
      { buf := encTexSet true w h fmt id payload, pos := 0 + 4,
        little := true, bases := [0] } =
      .ok ({ textures := [Texture.mk
               [[some (SubTexture.mk w h fmt id payload)]] none 1 1],
             texture_names := [] },
        { buf := encTexSet true w h fmt id payload,
          pos := 16, little := true, bases := [0] }) :=
    texSetReadBody_on_enc true w h fmt id payload hw hh hf hi hp
  have hbodyF : TextureSet.readBody 0
      { buf := encTexSet false w h fmt id payload, pos := 0 + 4,
        little := false, bases := [0] } =
      .ok ({ textures := [Texture.mk
               [[some (SubTexture.mk w h fmt id payload)]] none 1 1],
             texture_names := [] },
        { buf := encTexSet false w h fmt id payload,
          pos := 16, little := false, bases := [0] }) :=
    texSetReadBody_on_enc false w h fmt id payload hw hh hf hi hp
  constructor
  · rw [textureSetRead_sig_eq]
    simp only [mkReader]
    rw [if_pos c4T, hsigT, if_pos rfl, hbodyT]
  · rw [textureSetRead_sig_eq]
    simp only [mkReader]
    rw [if_pos c4F, if_neg hneF, hsigF2, if_pos rfl, hbodyF]

theorem texture_set_endianness_invariance_witness :
    TextureSet.read 0 (mkReader (encTexSet true 1 1 6 7 [])) =
      .ok ({ textures := [Texture.mk [[some (SubTexture.mk 1 1 6 7 [])]]
               none 1 1],
             texture_names := [] },
        { buf := encTexSet true 1 1 6 7 [], pos := 16,
          little := true, bases := [0] }) ∧
    TextureSet.read 0 (mkReader (encTexSet false 1 1 6 7 [])) =
      .ok ({ textures := [Texture.mk [[some (SubTexture.mk 1 1 6 7 [])]]
               none 1 1],
             texture_names := [] },
        { buf := encTexSet false 1 1 6 7 [], pos := 16,
          little := false, bases := [0] }) :=
  texture_set_endianness_invariance 1 1 6 7 [] (by norm_num) (by norm_num)
    (by norm_num) (by norm_num) (by norm_num)

/-- C3 (amended): structured reads (read_fmt, here the 4-byte int reads)
raise the end-of-data error when fewer bytes than requested remain, but
the raw N-byte read performs no such check: it never fails and returns
the at-most-available bytes, clamped to min(requested, remaining) — so a
successfully parsed SubTexture's payload can be shorter than its
declared size field. -/
theorem eof_checks_structured_reads_only :
    (∀ s : RState, s.buf.length < s.pos + 4 →
      ∃ se : RState, readI32 s = .error (PErr.eofErr, se)) ∧
    (∀ (n : Int) (s : RState) (e : PErr) (se : RState),
      readBytes n s ≠ .error (e, se)) ∧
    (∀ (n : Int) (s : RState), 0 ≤ n →
      readBytes n s = .ok ((s.buf.drop s.pos).take n.toNat,
        { s with pos := s.pos +
            ((s.buf.drop s.pos).take n.toNat).length }) ∧
      ((s.buf.drop s.pos).take n.toNat).length =
        min n.toNat (s.buf.length - s.pos)) := by
  refine ⟨?_, ?_, ?_⟩
  · intro s hshort
    exact ⟨_, by rw [readI32_eq, if_neg (by omega)]⟩
  · intro n s e se hc
    rw [readBytes_eq] at hc
    cases hc
  · intro n s hn
    constructor
    · rw [readBytes_eq, if_neg (by omega)]
    · simp [List.length_take, List.length_drop]

theorem eof_checks_structured_reads_only_witness :
    (∃ se : RState,
      readI32 { buf := [0], pos := 0, little := true, bases := [] } =
        .error (PErr.eofErr, se)) ∧
    readBytes 4 { buf := [1, 2], pos := 0, little := true, bases := [] } =
      .ok ([1, 2], RState.mk [1, 2] 2 true []) := by
  constructor
  · exact eof_checks_structured_reads_only.1
      { buf := [0], pos := 0, little := true, bases := [] } (by norm_num)
  · have h := (eof_checks_structured_reads_only.2.2 4
      { buf := [1, 2], pos := 0, little := true, bases := [] }
      (by norm_num)).1
    simpa using h

theorem filter_ne_zero_lt (offs : List Nat) (h0 : 0 ∈ offs) :
    (offs.filter (fun o => o ≠ 0)).length < offs.length := by
  induction offs with
  | nil => cases h0
  | cons a rest ih =>
    by_cases ha : a = 0
    · subst ha
      simp only [List.filter_cons, decide_not, List.length_cons]
      norm_num
      have := List.length_filter_le (fun o => !decide (o = 0)) rest
      omega
    · rcases List.mem_cons.mp h0 with hh | hh
      · exact absurd hh.symm ha
      · have := ih hh
        simp only [List.filter_cons, decide_not, List.length_cons]
        have hd : (!decide (a = 0)) = true := by
          simp [ha]
        rw [hd]
        simp only [if_true, List.length_cons]
        simp only [decide_not] at this
        omega

/-- C9: when the texture-offset table contains a zero entry, the parsed
textures list is compacted — its length is the number of nonzero table
entries, strictly fewer than the table length, with no placeholder — and
the deferred name pass assigns the name resolved from name-table index j
to the texture at compacted-list position j, with name indices past the
compacted length never consulted; names following a zero offset thus
attach to shifted textures. -/
theorem texture_offset_zero_compaction (toff : Nat) (s : RState)
    (ts : TextureSet) (s' : RState)
    (h : TextureSet.read toff s = .ok (ts, s')) :
    ∃ (lit : Bool) (offs : List Nat),
      offs.length = (i32At lit s.buf (s.pos + 4)).toNat ∧
      (∀ (i : Nat) (hi : i < offs.length),
        offs.get ⟨i, hi⟩ = u32At lit s.buf (s.pos + 4 + 8 + 4 * i)) ∧
      ts.textures.length = (offs.filter (fun o => o ≠ 0)).length ∧
      (0 ∈ offs → ts.textures.length < offs.length) ∧
      (toff ≠ 0 → ∃ nameOffs : List Nat,
        nameOffs.length = offs.length ∧
        (∀ (i : Nat) (hi : i < nameOffs.length),
          nameOffs.get ⟨i, hi⟩ = u32At true s.buf (toff + 4 * i)) ∧
        ∀ (j : Nat) (hj : j < ts.textures.length),
          (ts.textures.get ⟨j, hj⟩).name = nameAt s.buf nameOffs j) := by
  rw [textureSetRead_sig_eq] at h
  split at h
  · split at h
    · have hspec := textureSetReadBody_ok_spec h
      obtain ⟨-, -, -, offs, hlen, hget, hcomp, -, hnames⟩ := hspec
      refine ⟨s.little, offs, by simpa using hlen, ?_, by simpa using hcomp,
        ?_, ?_⟩
      · intro i hi
        have := hget i hi
        simpa using this
      · intro h0
        rw [hcomp]
        exact filter_ne_zero_lt offs h0
      · intro htoff
        obtain ⟨nameOffs, hnl, hng, hna⟩ := hnames htoff
        exact ⟨nameOffs, hnl, fun i hi => by simpa using hng i hi, hna⟩
    · split at h
      · have hspec := textureSetReadBody_ok_spec h
        obtain ⟨-, -, -, offs, hlen, hget, hcomp, -, hnames⟩ := hspec
        refine ⟨false, offs, by simpa using hlen, ?_, by simpa using hcomp,
          ?_, ?_⟩
        · intro i hi
          have := hget i hi
          simpa using this
        · intro h0
          rw [hcomp]
          exact filter_ne_zero_lt offs h0
        · intro htoff
          obtain ⟨nameOffs, hnl, hng, hna⟩ := hnames htoff
          exact ⟨nameOffs, hnl, fun i hi => by simpa using hng i hi, hna⟩
      · cases h
  · cases h

/-- Concrete TextureSet with a two-entry offset table whose first entry
is zero: one texture at byte 20 holding one subtexture at byte 36. -/
def c9setBuf : Buf :=
  wordsBuf true [0x03505854, 2, 0, 0, 20, 0x04505854, 1, 0x101, 16,
    0x02505854, 1, 1, 6, 7, 0]

set_option maxHeartbeats 2000000 in
theorem texture_offset_zero_compaction_witness :
    ∃ (lit : Bool) (offs : List Nat),
      offs.length = (i32At lit c9setBuf (0 + 4)).toNat ∧
      (∀ (i : Nat) (hi : i < offs.length),
        offs.get ⟨i, hi⟩ = u32At lit c9setBuf (0 + 4 + 8 + 4 * i)) ∧
      ([Texture.mk [[some (SubTexture.mk 1 1 6 7 [])]] none 1 1]).length =
        (offs.filter (fun o => o ≠ 0)).length ∧
      (0 ∈ offs →
        ([Texture.mk [[some (SubTexture.mk 1 1 6 7 [])]]
          none 1 1]).length < offs.length) ∧
      ((0 : Nat) ≠ 0 → ∃ nameOffs : List Nat,
        nameOffs.length = offs.length ∧
        (∀ (i : Nat) (hi : i < nameOffs.length),
          nameOffs.get ⟨i, hi⟩ = u32At true c9setBuf (0 + 4 * i)) ∧
        ∀ (j : Nat) (hj : j <
            ([Texture.mk [[some (SubTexture.mk 1 1 6 7 [])]]
              none 1 1]).length),
          (([Texture.mk [[some (SubTexture.mk 1 1 6 7 [])]]
            none 1 1]).get ⟨j, hj⟩).name = nameAt c9setBuf nameOffs j) :=
  texture_offset_zero_compaction 0 (mkReader c9setBuf)
    (TextureSet.mk [Texture.mk [[some (SubTexture.mk 1 1 6 7 [])]]
      none 1 1] [])
    (RState.mk c9setBuf 20 true [0]) (by decide)

theorem assignSpriteNamesLoop_safe :
    ∀ (offs : List Nat) (i : Nat) (sprites : List Sprite) (s : RState)
      (e : PErr) (se : RState), i + offs.length ≤ sprites.length →
      assignSpriteNamesLoop i sprites offs s ≠ .error (e, se) := by
  intro offs
  induction offs with
  | nil =>
    intro i sprites s e se hb hc
    cases hc
  | cons no rest ih =>
    intro i sprites s e se hb hc
    unfold assignSpriteNamesLoop at hc
    by_cases hno : no = 0
    · rw [if_pos hno] at hc
      exact ih (i + 1) sprites s e se
        (by simp only [List.length_cons] at hb; omega) hc
    · rw [if_neg hno] at hc
      simp only [bind_seekTo, bind_readCStrM] at hc
      rw [dif_pos (by simp only [List.length_cons] at hb; omega)] at hc
      refine ih (i + 1) _ _ e se ?_ hc
      simp only [List.length_set]
      simp only [List.length_cons] at hb
      omega

theorem assignSpriteNamesLoop_empty_fails :
    ∀ (offs : List Nat), (∃ no ∈ offs, no ≠ 0) →
      ∀ (i : Nat) (s : RState), ∃ se : RState,
        assignSpriteNamesLoop i [] offs s = .error (.indexErr, se) := by
  intro offs
  induction offs with
  | nil =>
    intro hex
    obtain ⟨no, hmem, -⟩ := hex
    cases hmem
  | cons no rest ih =>
    intro hex i s
    unfold assignSpriteNamesLoop
    by_cases hno : no = 0
    · rw [if_pos hno]
      refine ih ?_ (i + 1) s
      obtain ⟨x, hmem, hx⟩ := hex
      rcases List.mem_cons.mp hmem with hh | hh
      · exact absurd (hh ▸ hno) hx
      · exact ⟨x, hh, hx⟩
    · rw [if_neg hno]
      simp only [bind_seekTo, bind_readCStrM]
      rw [dif_neg (by simp)]
      exact ⟨_, rfl⟩

theorem errKinds_textureSetRead (toff : Nat) :
    ∀ (s : RState) (e : PErr) (se : RState),
      TextureSet.read toff s = .error (e, se) →
      e = .eofErr ∨ e = .texSigErr ∨ e = .subSigErr ∨ e = .setSigErr := by
  intro s e se h
  rw [textureSetRead_sig_eq] at h
  split at h
  · split at h
    · rcases textureSetReadBody_err_kinds toff _ e se h with h1 | h1 | h1
      · exact Or.inl h1
      · exact Or.inr (Or.inl h1)
      · exact Or.inr (Or.inr (Or.inl h1))
    · split at h
      · rcases textureSetReadBody_err_kinds toff _ e se h with h1 | h1 | h1
        · exact Or.inl h1
        · exact Or.inr (Or.inl h1)
        · exact Or.inr (Or.inr (Or.inl h1))
      · cases h
        exact Or.inr (Or.inr (Or.inr rfl))
  · cases h
    exact Or.inl rfl

theorem textureSetRead_ok_bases {toff : Nat} {s : RState}
    {ts : TextureSet} {s' : RState}
    (h : TextureSet.read toff s = .ok (ts, s')) : s'.bases = s.bases := by
  rw [textureSetRead_sig_eq] at h
  split at h
  · split at h
    · exact (textureSetReadBody_ok_spec h).1
    · split at h
      · exact (textureSetReadBody_ok_spec h).1
      · cases h
  · cases h

/-- Error-kind bound of a computation launched from one specific state
(errKinds specialised to a start state, so state-dependent facts can be
threaded through a bind chain). -/
def errKindsAt {α : Type} (E : PErr → Prop) (m : M α) (s : RState) : Prop :=
  ∀ e se, m s = .error (e, se) → E e

theorem errKindsAt_of_errKinds {α : Type} {E : PErr → Prop} {m : M α}
    (h : errKinds E m) (s : RState) : errKindsAt E m s :=
  fun e se => h s e se

theorem errKindsAt_bind {α β : Type} {E : PErr → Prop} {m : M α}
    {f : α → M β} {s : RState} (h1 : errKindsAt E m s)
    (h2 : ∀ a s', m s = .ok (a, s') → errKindsAt E (f a) s') :
    errKindsAt E (m >>= f) s := by
  intro e se h
  rw [M_bind_eq] at h
  cases hm : m s with
  | error ep =>
    obtain ⟨e1, s1⟩ := ep
    rw [hm] at h
    cases h
    exact h1 _ _ hm
  | ok p =>
    rw [hm] at h
    exact h2 p.1 p.2 (by rw [hm]) e se h

theorem errKindsAt_pure {α : Type} {E : PErr → Prop} (a : α) (s : RState) :
    errKindsAt E (pure a) s := by
  intro e se h
  cases h

theorem errKindsAt_bind_tellM {β : Type} {E : PErr → Prop}
    {f : Nat → M β} {s : RState}
    (h : errKindsAt E (f s.pos) s) : errKindsAt E (tellM >>= f) s := h

theorem errKindsAt_bind_seekTo {β : Type} {E : PErr → Prop} {p : Nat}
    {f : Unit → M β} {s : RState}
    (h : errKindsAt E (f ()) { s with pos := p }) :
    errKindsAt E (seekTo p >>= f) s := h

theorem errKindsAt_bind_pushBase {β : Type} {E : PErr → Prop} {b : Nat}
    {f : Unit → M β} {s : RState}
    (h : errKindsAt E (f ()) { s with bases := b :: s.bases }) :
    errKindsAt E (pushBase b >>= f) s := h

theorem errKindsAt_bind_seekBaseRel {β : Type} {E : PErr → Prop}
    {off : Nat} {f : Unit → M β} {s : RState}
    (h : errKindsAt E (f ()) { s with pos := curBase s + off }) :
    errKindsAt E (seekBaseRel off >>= f) s := h


theorem spritesPhase_ok_length (n off : Nat) (s : RState)
    (sp : List Sprite) (s' : RState)
    (h : ((do
        let cur ← tellM
        seekBaseRel off
        let x ← readSprites n
        seekTo cur
        pure x) : M (List Sprite)) s = .ok (sp, s')) : sp.length = n := by
  simp only [bind_tellM, bind_seekBaseRel] at h
  rw [M_bind_eq] at h
  cases hx : readSprites n
      { s with pos := curBase s + off } with
  | error ep =>
    rw [hx] at h
    cases h
  | ok p =>
    rw [hx] at h
    simp only [bind_seekTo, M_pure_eq] at h
    cases h
    exact (readSprites_ok _ _ _ _ hx).1

theorem spriteSetRead_err_kinds_of_sprites_offset :
    ∀ (s : RState) (e : PErr) (se : RState),
      u32At s.little s.buf (s.pos + 16) ≠ 0 →
      SpriteSet.read s = .error (e, se) →
      e = .eofErr ∨ e = .texSigErr ∨ e = .subSigErr ∨ e = .setSigErr := by
  intro s e se hsp h
  have hsp' : u32At s.little s.buf (s.pos + 4 + 4 + 4 + 4) ≠ 0 := by
    rw [show s.pos + 4 + 4 + 4 + 4 = s.pos + 16 from by omega]
    exact hsp
  have main : errKindsAt (fun x => x = PErr.eofErr ∨ x = PErr.texSigErr ∨
      x = PErr.subSigErr ∨ x = PErr.setSigErr) SpriteSet.read s := by
    unfold SpriteSet.read
    simp only [readOffset]
    refine errKindsAt_bind
      (errKindsAt_of_errKinds (errKinds_readI32 (by exact Or.inl rfl)) _) ?_
    intro v1 s1 hok1
    rw [readI32_eq] at hok1
    split at hok1
    rotate_left
    · cases hok1
    cases hok1
    refine errKindsAt_bind
      (errKindsAt_of_errKinds (errKinds_readU32 (by exact Or.inl rfl)) _) ?_
    intro v2 s2 hok2
    rw [readU32_eq] at hok2
    split at hok2
    rotate_left
    · cases hok2
    cases hok2
    dsimp only
    refine errKindsAt_bind
      (errKindsAt_of_errKinds (errKinds_readI32 (by exact Or.inl rfl)) _) ?_
    intro v3 s3 hok3
    rw [readI32_eq] at hok3
    split at hok3
    rotate_left
    · cases hok3
    cases hok3
    dsimp only
    refine errKindsAt_bind
      (errKindsAt_of_errKinds (errKinds_readI32 (by exact Or.inl rfl)) _) ?_
    intro v4 s4 hok4
    rw [readI32_eq] at hok4
    split at hok4
    rotate_left
    · cases hok4
    cases hok4
    dsimp only
    refine errKindsAt_bind
      (errKindsAt_of_errKinds (errKinds_readU32 (by exact Or.inl rfl)) _) ?_
    intro v5 s5 hok5
    rw [readU32_eq] at hok5
    split at hok5
    rotate_left
    · cases hok5
    cases hok5
    dsimp only
    refine errKindsAt_bind
      (errKindsAt_of_errKinds (errKinds_readU32 (by exact Or.inl rfl)) _) ?_
    intro v6 s6 hok6
    rw [readU32_eq] at hok6
    split at hok6
    rotate_left
    · cases hok6
    cases hok6
    dsimp only
    refine errKindsAt_bind
      (errKindsAt_of_errKinds (errKinds_readU32 (by exact Or.inl rfl)) _) ?_
    intro v7 s7 hok7
    rw [readU32_eq] at hok7
    split at hok7
    rotate_left
    · cases hok7
    cases hok7
    dsimp only
    refine errKindsAt_bind
      (errKindsAt_of_errKinds (errKinds_readU32 (by exact Or.inl rfl)) _) ?_
    intro v8 s8 hok8
    rw [readU32_eq] at hok8
    split at hok8
    rotate_left
    · cases hok8
    cases hok8
    dsimp only
    refine errKindsAt_bind ?_ ?_
    · by_cases hto : u32At s.little s.buf (s.pos + 4) ≠ 0
      · rw [if_pos hto]
        refine errKindsAt_bind_tellM ?_
        refine errKindsAt_bind_seekTo ?_
        refine errKindsAt_bind_pushBase ?_
        refine errKindsAt_bind
          (errKindsAt_of_errKinds (errKinds_textureSetRead _) _) ?_
        intro ts s4 hTS
        have hb : s4.bases =
            u32At s.little s.buf (s.pos + 4) :: s.bases := by
          have hx := textureSetRead_ok_bases hTS
          simpa using hx
        refine errKindsAt_bind ?_ ?_
        · intro e1 se1 hpb
          unfold popBase at hpb
          rw [hb] at hpb
          cases hpb
        · intro u s5 hpb
          refine errKindsAt_bind_seekTo ?_
          exact errKindsAt_pure _ _
      · rw [if_neg hto]
        exact errKindsAt_pure _ _
    intro tsOpt s9 hok9
    dsimp only
    refine errKindsAt_bind ?_ ?_
    · rw [if_pos hsp']
      refine errKindsAt_bind_tellM ?_
      refine errKindsAt_bind_seekBaseRel ?_
      refine errKindsAt_bind
        (errKindsAt_of_errKinds
          (errKinds_readSprites (by exact Or.inl rfl) _) _) ?_
      intro sp s10 hSP
      refine errKindsAt_bind_seekTo ?_
      exact errKindsAt_pure _ _
    intro sprites s11 hok11
    rw [if_pos hsp'] at hok11
    have hsplen := spritesPhase_ok_length _ _ _ _ _ hok11
    refine errKindsAt_bind ?_ ?_
    · by_cases hsn :
          u32At s.little s.buf (s.pos + 4 + 4 + 4 + 4 + 4 + 4) ≠ 0
      · rw [if_pos hsn]
        refine errKindsAt_bind_tellM ?_
        refine errKindsAt_bind_seekBaseRel ?_
        refine errKindsAt_bind
          (errKindsAt_of_errKinds
            (errKinds_readOffsetTable (by exact Or.inl rfl) _) _) ?_
        intro nameOffs s12 hOT
        have hnl := (readOffsetTable_ok _ _ _ _ hOT).1
        refine errKindsAt_bind ?_ ?_
        · intro e1 se1 hAL
          exact absurd hAL
            (assignSpriteNamesLoop_safe nameOffs 0 sprites _ e1 se1
              (by omega))
        · intro sp2 s13 hAL
          refine errKindsAt_bind_seekTo ?_
          exact errKindsAt_pure _ _
      · rw [if_neg hsn]
        exact errKindsAt_pure _ _
    intro sprites2 s14 hok14
    exact errKindsAt_pure _ _
  exact main e se h

/-- Concrete SpriteSet header: sprite_count 1, sprites_offset 0 (no
sprites read), sprite_names_offset 36 pointing at a one-entry offset
table whose entry 40 addresses the string "a". -/
def c10buf : Buf :=
  wordsBuf true [0, 0, 0, 1, 0, 0, 36, 0, 0, 40] ++ [97, 0]

/-- Concrete SpriteSet header with sprites_offset 8 and a buffer too
short for a full 40-byte sprite record. -/
def c10bBuf : Buf := wordsBuf true [0, 0, 0, 1, 8, 0, 0, 0]

set_option maxHeartbeats 2000000 in
/-- C10: the sprite-name pass indexes sprites[i] with no bounds guard:
with sprites_offset 0 (empty sprites list), a nonzero
sprite_names_offset and a nonzero name offset among the first
sprite_count entries, the parse raises the index error instead of
completing with names ignored; with a nonzero sprites_offset field the
index-error outcome is unreachable (the sprite list then holds exactly
sprite_count entries, one per name-table slot). -/
theorem sprite_name_assignment_bounds :
    SpriteSet.read (mkReader c10buf) =
      .error (.indexErr, RState.mk c10buf 42 true [0]) ∧
    u32At true c10buf 16 = 0 ∧
    u32At true c10buf 24 ≠ 0 ∧
    i32At true c10buf 12 = 1 ∧
    u32At true c10buf 36 ≠ 0 ∧
    (∀ (s : RState) (e : PErr) (se : RState),
      u32At s.little s.buf (s.pos + 16) ≠ 0 →
      SpriteSet.read s = .error (e, se) → e ≠ .indexErr) := by
  refine ⟨by decide, by decide, by decide, by decide, by decide, ?_⟩
  intro s e se hsp h
  rcases spriteSetRead_err_kinds_of_sprites_offset s e se hsp h with
    h1 | h1 | h1 | h1 <;> subst h1 <;> decide

set_option maxHeartbeats 1000000 in
theorem sprite_name_assignment_bounds_witness :
    PErr.eofErr ≠ PErr.indexErr :=
  sprite_name_assignment_bounds.2.2.2.2.2 (mkReader c10bBuf) .eofErr
    (RState.mk c10bBuf 32 true [0]) (by decide) (by decide)
